import Mathlib

/-!
# The five-point stencil benchmark (`src/stencil.cc`)

A shallow embedding of the host program: the reference stencil pass `stencil_cpu`, the
comparison `relNumDiffEl`, the grid writer `writeGrid`, the input initialisation and the control
flow of `main`, followed by the properties proved about them.

Modelling conventions.

* A `float*` buffer is a `List ℚ`. In the stencil update the cell arithmetic is exact, so the
  rounding of `float` is not represented there, and the literals `0.24f`, `-4.0f`, `0.25` and
  `0.75` denote the rationals they are written as.
* In `relNumDiffEl` every floating-point operation is rounded: `toFloat` and `toDouble` round
  to the nearest value with a 24-bit and a 53-bit significand, ties to even. The exponent
  range is not bounded; for `N * N` in the range of `int` the quotient and the sums are normal
  `double`s, and a difference of cells that would underflow or overflow as a `float` compares
  with `1e-6` the same way in both readings.
* The `int` quantities `N` and `T` are natural numbers: the grid side and the step count are
  taken non-negative and small enough that `N * N` does not leave the range of `int`
  (outside that range the source has no defined behaviour).
* A read `a[i]` is `rd a i`; a write `a[i] = v` is `List.set`.
* The CUDA driver is an environment `Runtime` that fixes which driver calls succeed.
-/

namespace Stencil

/-! ## Data model -/

/-- A grid buffer of the source (`float*`), in row-major order. -/
abbrev Grid := List ℚ

/-- The read `g[i]`. -/
def rd (g : Grid) (i : Nat) : ℚ := (g[i]?).getD 0

/-- The constant `#define TILESIZE 32`. -/
def TILESIZE : Nat := 32

/-- The constant `EXIT_SUCCESS`. -/
def EXIT_SUCCESS : Int := 0

/-- The constant `EXIT_FAILURE`. -/
def EXIT_FAILURE : Int := 1

/-! ## `stencil_cpu` -/

/-- The body of the `if` in `stencil_cpu` (lines 81-90): the value stored in `out[id]`. -/
def stencil_cell (inp : Grid) (N id : Nat) : ℚ :=
  let res := rd inp (id - N)
  let res := res + rd inp (id + N)
  let res := res + rd inp (id - 1)
  let res := res + rd inp (id + 1)
  let res := res + -4.0 * rd inp id
  let res := res * 0.24
  let res := res + rd inp id
  let res := if res > 127 then 127 else res
  let res := if res < 0 then 0 else res
  res

/-- The function `stencil_cpu(in, out, N)`: the destination buffer after the pass. -/
def stencil_cpu (inp out : Grid) (N : Nat) : Grid :=
  (List.range (N * N)).foldl (fun out i =>
    let x := i % N
    let y := i / N
    if x > 0 ∧ y > 0 ∧ x < N - 1 ∧ y < N - 1 then
      let id := x + y * N
      out.set id (stencil_cell inp N id)
    else out) out

/-! ## Floating-point rounding -/

/-- Rounding of a positive rational to the nearest value with a `p`-bit significand, ties to
the even significand: `e` is the exponent of the unit in the last place, `s` the scaled
significand, `f` its integer part and `m` the rounded significand. -/
def roundPos (p : Nat) (q : ℚ) : ℚ :=
  let e : ℤ := Int.log 2 q - ((p : ℤ) - 1)
  let s : ℚ := q / (2 : ℚ) ^ e
  let f : ℤ := ⌊s⌋
  let m : ℤ :=
    if s - f < 1 / 2 then f
    else if 1 / 2 < s - f then f + 1
    else if f % 2 = 0 then f else f + 1
  (m : ℚ) * (2 : ℚ) ^ e

/-- Rounding to nearest, ties to even, with a `p`-bit significand. -/
def roundNE (p : Nat) (q : ℚ) : ℚ :=
  if q = 0 then 0 else if 0 < q then roundPos p q else -roundPos p (-q)

/-- The value of a `float` operation whose exact result is `q`. -/
def toFloat (q : ℚ) : ℚ := roundNE 24 q

/-- The value of a `double` operation whose exact result is `q`. -/
def toDouble (q : ℚ) : ℚ := roundNE 53 q

/-! ## `relNumDiffEl` -/

/-- The function `relNumDiffEl(a, b, N)`: the difference `a[i] - b[i]` is a `float`
subtraction, `1e-6` a `double` literal, `(float) (N * N)` a conversion of an `int`, the
quotient and the sum `res += ...` are `double` operations. -/
def relNumDiffEl (a b : Grid) (N : Nat) : ℚ :=
  (List.range (N * N)).foldl (fun res i =>
    if |toFloat (rd a i - rd b i)| > toDouble 1e-6 then
      toDouble (res + toDouble (1 / toFloat ((N * N : Nat) : ℚ)))
    else res) 0

/-! ## `writeGrid` -/

/-- What `writeGrid` sends to the file stream: a cell value, a blank or a line end. -/
inductive Tok where
  | num (v : ℚ)
  | space
  | endl

/-- The function `writeGrid(a, N, fname)`: `none` when no file is written (empty name),
otherwise the stream written to the file. -/
def writeGrid (a : Grid) (N : Nat) (fname : String) : Option (List Tok) :=
  if fname.isEmpty then none
  else some (Tok.num (rd a 0) ::
    (List.range' 1 (N * N - 1)).flatMap (fun i =>
      [if i % N = 0 then Tok.endl else Tok.space, Tok.num (rd a i)]))

/-! ## Input initialisation of `main` (lines 189-221) -/

/-- Fresh storage `new float[n]`: `n` cells of indeterminate content `fill`. -/
def alloc (fill : Nat → ℚ) (n : Nat) : Grid := (List.range n).map fill

/-- The section `SET INPUT DATA` of `main`, on `(gridA_h, gridB_h, gpu_result)`. -/
def set_input_data (mem : Grid × Grid × Grid) (N : Nat) (bottomSource : Bool) :
    Grid × Grid × Grid :=
  let s := (List.range (N * N)).foldl (fun (s : Grid × Grid × Grid) (i : Nat) =>
    let a := s.1.set i 0
    let b := s.2.1.set i 0
    let r := s.2.2.set i 0
    if (i : ℚ) ≥ 0.25 * (N : ℚ) ∧ (i : ℚ) ≤ 0.75 * (N : ℚ) then
      (a.set i 127, b.set i 127, r.set i 127)
    else (a, b, r)) mem
  if bottomSource then
    (List.range (N * N)).foldl (fun (s : Grid × Grid × Grid) (i : Nat) =>
      if (i : ℚ) ≥ 0.25 * (N : ℚ) ∧ (i : ℚ) ≤ 0.75 * (N : ℚ) then
        (s.1.set (N * N - i) 127, s.2.1.set (N * N - i) 127, s.2.2.set (N * N - i) 127)
      else s) s
  else s

/-! ## The reference loop of `main` (lines 291-294) -/

/-- The loop `for (i < T) { stencil_cpu(gridA_h, gridB_h, N); swap(gridA_h, gridB_h); }` on the
pair `(gridA_h, gridB_h)`. -/
def cpu_loop : Nat → Grid × Grid → Nat → Grid × Grid
  | 0, s, _ => s
  | T + 1, s, N => cpu_loop T (stencil_cpu s.1 s.2 N, s.1) N

/-! ## The device side -/

/-- Modelled from the spec: the device kernel `stencil5p_2D`, whose module
`stencil-kernel.ptx` is not among the sources. The thread with index `(tx, ty)` of the tile
(block) `(bx, byy)` updates the cell `(bx * threads + tx, byy * threads + ty)` by the update
rule of the sequential variant, reading only the source buffer and writing only the
destination buffer; boundary cells are left untouched. -/
def stencil5p_2D (inp : Grid) (N threads : Nat) (out : Grid) (bx byy tx ty : Nat) : Grid :=
  let x := bx * threads + tx
  let y := byy * threads + ty
  if x > 0 ∧ y > 0 ∧ x < N - 1 ∧ y < N - 1 then
    let id := x + y * N
    out.set id (stencil_cell inp N id)
  else out

/-- Modelled from the spec: a completed launch of `stencil5p_2D` with grid
`(blocks, blocks, 1)` and block `(threads, threads, 1)` on the arguments
`(gridA_d, gridB_d, N)`, the tiles partitioning the domain. The threads write disjoint cells
and read only the source, so they are run here in one fixed order. An element of the thread
list is `(byy, bx, ty, tx)`. -/
def cuLaunchKernel (blocks threads : Nat) (gridA_d gridB_d : Grid) (N : Nat) : Grid :=
  (List.product (List.range blocks) (List.product (List.range blocks)
    (List.product (List.range threads) (List.range threads)))).foldl
    (fun out t => stencil5p_2D gridA_d N threads out t.2.1 t.1 t.2.2.2 t.2.2.1) gridB_d

/-- The outcome of every call into the CUDA driver and of the host allocation; `memA`, `memB`
and `memR` are the indeterminate contents of the three fresh host buffers. -/
structure Runtime where
  hostAlloc : Bool
  memA : Nat → ℚ
  memB : Nat → ℚ
  memR : Nat → ℚ
  cuInit : Bool
  cuDeviceGet : Bool
  cuDeviceComputeCapability : Bool
  cuCtxCreate : Bool
  cuModuleLoad : Bool
  cuModuleGetFunction : Bool
  cuMemAllocA : Bool
  cuMemAllocB : Bool
  cuMemcpyHtoDA : Bool
  cuMemcpyHtoDB : Bool
  cuLaunch : Nat → Bool
  cuCtxSynchronize : Nat → Bool
  cuMemcpyDtoH : Bool
  cuMemFreeA : Bool
  cuMemFreeB : Bool
  cuCtxDestroy : Bool

/-- The exit status of `__checkCudaErrors`, `exit(-1)`. -/
def EXIT_CUDA : Int := -1

/-- The device buffers `(gridA_d, gridB_d)` and the number of kernel launches issued. -/
structure Device where
  gridA_d : Grid
  gridB_d : Grid
  launches : Nat

/-- The loop `KERNEL LAUNCH` of `main` (lines 315-323): `n` remaining iterations starting at
loop counter `i`. The arguments are read through `args` at each launch, so a launch sees the
current values of `gridA_d` and `gridB_d`. Returns the exit status if a checked call failed. -/
def kernel_loop (rt : Runtime) (blocks threads N : Nat) : Nat → Nat → Device → Option Int × Device
  | 0, _, d => (none, d)
  | n + 1, i, d =>
    let d1 : Device := { d with launches := d.launches + 1 }
    if rt.cuLaunch i = false then (some EXIT_CUDA, d1)
    else if rt.cuCtxSynchronize i = false then (some EXIT_CUDA, d1)
    else
      let written := cuLaunchKernel blocks threads d.gridA_d d.gridB_d N
      kernel_loop rt blocks threads N n (i + 1)
        { gridA_d := written, gridB_d := d.gridA_d, launches := d.launches + 1 }

/-! ## `main` -/

/-- The parsed command line. -/
structure Args where
  help : Bool
  checkResult : Bool
  verbose : Bool
  bottomSource : Bool
  N : Nat
  T : Nat
  fname : String

/-- The program state observed when `main` ends. -/
structure State where
  gridA_h : Grid
  gridB_h : Grid
  gpu_result : Grid
  dev : Device
  report : Option ℚ
  printed : List Grid
  file : Option (List Tok)

/-- The state before anything is allocated. -/
def State.empty : State :=
  { gridA_h := [], gridB_h := [], gpu_result := [],
    dev := { gridA_d := [], gridB_d := [], launches := 0 },
    report := none, printed := [], file := none }

/-- The sections `ALLOCATE HOST MEMORY` (after a successful allocation) and `SET INPUT DATA` of
`main` (lines 189-221). -/
def host_init (rt : Runtime) (a : Args) : State :=
  let g := set_input_data
    (alloc rt.memA (a.N * a.N), alloc rt.memB (a.N * a.N), alloc rt.memR (a.N * a.N))
    a.N a.bottomSource
  { State.empty with gridA_h := g.1, gridB_h := g.2.1, gpu_result := g.2.2 }

/-- The sections `CUDA INIT, CONTEXT, MODULE, FUNCTION`, `ALLOCATE DEVICE MEMORY` and
`COPY HOST TO DEVICE` of `main` (lines 223-286): the exit status if the program ends there,
and the state. -/
def cuda_setup (rt : Runtime) (s : State) : Option Int × State :=
  if rt.cuInit = false then (some EXIT_CUDA, s) else
  if rt.cuDeviceGet = false then (some EXIT_CUDA, s) else
  if rt.cuDeviceComputeCapability = false then (some EXIT_CUDA, s) else
  if rt.cuCtxCreate = false then (some EXIT_FAILURE, s) else
  if rt.cuModuleLoad = false then (some EXIT_FAILURE, s) else
  if rt.cuModuleGetFunction = false then (some EXIT_FAILURE, s) else
  if rt.cuMemAllocA = false then (some EXIT_CUDA, s) else
  if rt.cuMemAllocB = false then (some EXIT_CUDA, s) else
  if rt.cuMemcpyHtoDA = false then (some EXIT_CUDA, s) else
  let s := { s with dev := { s.dev with gridA_d := s.gridA_h } }
  if rt.cuMemcpyHtoDB = false then (some EXIT_CUDA, s) else
  (none, { s with dev := { s.dev with gridB_d := s.gridB_h } })

/-- The section `VERIFY RESULTS WITH CPU STENCIL` of `main` (lines 288-295). -/
def verify_cpu (a : Args) (s : State) : State :=
  if a.checkResult then
    let h := cpu_loop a.T (s.gridA_h, s.gridB_h) a.N
    { s with gridA_h := h.1, gridB_h := h.2 }
  else s

/-- The end of `main` from `COPY DEVICE TO HOST` on (lines 326-367). -/
def finish (rt : Runtime) (a : Args) (s : State) : Int × State :=
  -- COPY DEVICE TO HOST
  if rt.cuMemcpyDtoH = false then (EXIT_CUDA, s) else
  let s := { s with gpu_result := s.dev.gridA_d }
  -- CHECK IF RESULTS ARE EQUAL
  let s := if a.checkResult then
      { s with report := some (relNumDiffEl s.gridA_h s.gpu_result a.N * 100) }
    else s
  -- IF VERBOSE PRINT GRIDS
  let s := if a.verbose then
      { s with printed := (if a.checkResult then [s.gridA_h] else []) ++ [s.gpu_result] }
    else s
  -- WRITE RESULT
  let s := { s with file := writeGrid s.gridA_h a.N a.fname }
  -- FREE MEMORY
  if rt.cuMemFreeA = false then (EXIT_CUDA, s) else
  if rt.cuMemFreeB = false then (EXIT_CUDA, s) else
  if rt.cuCtxDestroy = false then (EXIT_CUDA, s) else
  (EXIT_SUCCESS, s)

/-- The function `main`, after the command line has been parsed: exit status and final state.
The sections of the source are the functions above, in the order of the source. -/
def main (rt : Runtime) (a : Args) : Int × State :=
  if a.help then (EXIT_SUCCESS, State.empty) else
  if rt.hostAlloc = false then (EXIT_FAILURE, State.empty) else
  match cuda_setup rt (host_init rt a) with
  | (some e, s) => (e, s)
  | (none, s) =>
    let s := verify_cpu a s
    -- PREPARE KERNEL ARGUMENTS
    let threads := TILESIZE
    let blocks := a.N / TILESIZE
    if a.N % TILESIZE ≠ 0 then (EXIT_FAILURE, s) else
    -- KERNEL LAUNCH
    let k := kernel_loop rt blocks threads a.N a.T 0 s.dev
    match k.1 with
    | some e => (e, { s with dev := k.2 })
    | none => finish rt a { s with dev := k.2 }

/-- Every call of a run with `T` steps into the driver succeeds, and so does the host
allocation. -/
def Runtime.ok (rt : Runtime) (T : Nat) : Prop :=
  rt.hostAlloc = true ∧ rt.cuInit = true ∧ rt.cuDeviceGet = true
  ∧ rt.cuDeviceComputeCapability = true ∧ rt.cuCtxCreate = true ∧ rt.cuModuleLoad = true
  ∧ rt.cuModuleGetFunction = true ∧ rt.cuMemAllocA = true ∧ rt.cuMemAllocB = true
  ∧ rt.cuMemcpyHtoDA = true ∧ rt.cuMemcpyHtoDB = true
  ∧ (∀ i, i < T → rt.cuLaunch i = true ∧ rt.cuCtxSynchronize i = true)
  ∧ rt.cuMemcpyDtoH = true ∧ rt.cuMemFreeA = true ∧ rt.cuMemFreeB = true
  ∧ rt.cuCtxDestroy = true

/-- The state in which `main` enters its last section when every call succeeded and the tiles
cover the grid: the host buffers after the optional reference loop, the device buffers after
the kernel loop, written as what the reference loop computes. -/
def computed (rt : Runtime) (a : Args) : State :=
  { verify_cpu a (host_init rt a) with
    dev := { gridA_d := (cpu_loop a.T
                ((host_init rt a).gridA_h, (host_init rt a).gridB_h) a.N).1,
             gridB_d := (cpu_loop a.T
                ((host_init rt a).gridA_h, (host_init rt a).gridB_h) a.N).2,
             launches := a.T } }

/-- A runtime in which every call succeeds; fresh host storage holds `fill`. -/
def okRuntime (fill : ℚ) : Runtime :=
  { hostAlloc := true, memA := fun _ => fill, memB := fun _ => fill, memR := fun _ => fill,
    cuInit := true, cuDeviceGet := true, cuDeviceComputeCapability := true,
    cuCtxCreate := true, cuModuleLoad := true, cuModuleGetFunction := true,
    cuMemAllocA := true, cuMemAllocB := true, cuMemcpyHtoDA := true, cuMemcpyHtoDB := true,
    cuLaunch := fun _ => true, cuCtxSynchronize := fun _ => true, cuMemcpyDtoH := true,
    cuMemFreeA := true, cuMemFreeB := true, cuCtxDestroy := true }

/-- The sample run `-N 1000 -T 10 -check -fname out.txt`. -/
def args1000 : Args :=
  { help := false, checkResult := true, verbose := false, bottomSource := false,
    N := 1000, T := 10, fname := "out.txt" }

/-- The sample run `-N 32 -T 1 -fname out.txt`, without `-check`. -/
def args32 : Args :=
  { help := false, checkResult := false, verbose := false, bottomSource := false,
    N := 32, T := 1, fname := "out.txt" }

/-- The sample run `-N 32 -T 1 -check`. -/
def args32check : Args :=
  { help := false, checkResult := true, verbose := false, bottomSource := false,
    N := 32, T := 1, fname := "" }

/-! ## The specification's view of one step -/

/-- The clamp of the update rule, `clamp(v, lo, hi)`. -/
def clamp (v lo hi : ℚ) : ℚ := max lo (min v hi)

/-- One stencil pass as a pure function on a single grid, as the specification words it:
interior cells by the update rule, boundary cells copied. -/
def step (N : Nat) (g : Grid) : Grid :=
  (List.range (N * N)).map (fun id =>
    let x := id % N
    let y := id / N
    if 0 < x ∧ x < N - 1 ∧ 0 < y ∧ y < N - 1 then
      clamp (rd g id + 0.24 * (rd g (id - N) + rd g (id + N) + rd g (id - 1) + rd g (id + 1)
        + (-4 * rd g id))) 0 127
    else rd g id)

/-! ## Auxiliary predicates and sample data -/

/-- The guard of `stencil_cpu` on the loop counter `i`: the cell is an interior cell. -/
def interior (N i : Nat) : Prop := i % N > 0 ∧ i / N > 0 ∧ i % N < N - 1 ∧ i / N < N - 1

instance (N i : Nat) : Decidable (interior N i) := by unfold interior; infer_instance

/-- The seeding test of `main` on the loop counter, `i >= 0.25 * N && i <= 0.75 * N`. -/
def band (N i : Nat) : Prop := (i : ℚ) ≥ 0.25 * (N : ℚ) ∧ (i : ℚ) ≤ 0.75 * (N : ℚ)

instance (N i : Nat) : Decidable (band N i) := by unfold band; infer_instance

/-- The share of one buffer in the first loop of `set_input_data`: cell `i` receives 127 or 0
according to the seeding test. -/
def seed1 (g : Grid) (N : Nat) : Grid :=
  (List.range (N * N)).foldl
    (fun o i => if True then o.set i (if band N i then 127 else 0) else o) g

/-- The share of one buffer in `set_input_data`: the first loop, then, with the bottom source,
the second loop, which writes 127 at `N * N - i`. -/
def seed (g : Grid) (N : Nat) (bottomSource : Bool) : Grid :=
  if bottomSource then
    (List.range (N * N)).foldl (fun o i => if band N i then o.set (N * N - i) 127 else o)
      (seed1 g N)
  else seed1 g N

/-- Every cell of the grid lies in the closed range from 0 to 127. -/
def InRange (g : Grid) : Prop := ∀ v ∈ g, 0 ≤ v ∧ v ≤ 127

/-- The all-zero grid of side `N`. -/
def zeroGrid (N : Nat) : Grid := List.replicate (N * N) 0

/-- The number of indices below `N * N` that pass the test of `relNumDiffEl`,
`fabs(a[i] - b[i]) > 1e-6`. -/
def numDiff (a b : Grid) (N : Nat) : Nat :=
  ((List.range (N * N)).filter
    (fun i => decide (|toFloat (rd a i - rd b i)| > toDouble 1e-6))).length

/-- The grid of side `N` whose cells all hold 1. -/
def onesGrid (N : Nat) : Grid := List.replicate (N * N) 1

/-- The grid of side `N` whose cell 0 holds 1 and whose other cells hold 0. -/
def oneHot (N : Nat) : Grid := (zeroGrid N).set 0 1

/-- The grid of side 4 whose cells 1, 2 and 3 hold 127, as `main` seeds it for `N = 4`. -/
def g4 : Grid := [0, 127, 127, 127, 0, 0, 0, 0, 0, 0, 0, 0, 0, 0, 0, 0]

/-! ## Reads, writes and loops of guarded writes -/

theorem rd_set (g : Grid) (i j : Nat) (v : ℚ) :
    rd (g.set i v) j = if i = j ∧ j < g.length then v else rd g j := by
  unfold rd
  rw [List.getElem?_set]
  by_cases h : i = j
  · by_cases h2 : j < g.length
    · simp [h, h2]
    · subst h
      simp [h2, List.getElem?_eq_none (Nat.le_of_not_lt h2)]
  · simp [h]

theorem rd_of_length_le (g : Grid) (j : Nat) (h : g.length ≤ j) : rd g j = 0 := by
  simp [rd, List.getElem?_eq_none h]

theorem rd_mem (g : Grid) (j : Nat) (h : j < g.length) : rd g j ∈ g := by
  simp [rd, List.getElem?_eq_getElem h]

theorem grid_ext (a b : Grid) (hl : a.length = b.length)
    (h : ∀ j, j < a.length → rd a j = rd b j) : a = b := by
  apply List.ext_getElem hl
  intro n h1 h2
  have := h n h1
  simpa [rd, List.getElem?_eq_getElem h1, List.getElem?_eq_getElem h2] using this

/-- Guarded writes whose value depends only on the target index: a cell of the result holds the
written value exactly when some guarded write targets it, whatever the order of the writes. -/
theorem rd_foldl_write {α : Type} (p : α → Prop) [DecidablePred p] (idx : α → Nat)
    (f : Nat → ℚ) (l : List α) (out : Grid) (j : Nat) :
    rd (l.foldl (fun o i => if p i then o.set (idx i) (f (idx i)) else o) out) j
      = if j < out.length ∧ ∃ i ∈ l, p i ∧ idx i = j then f j else rd out j := by
  induction l generalizing out with
  | nil => simp
  | cons a t ih =>
    rw [List.foldl_cons, ih]
    by_cases hp : p a
    · simp only [hp, if_true, List.length_set, rd_set, List.mem_cons, exists_eq_or_imp, true_and]
      by_cases hj : j < out.length
      · by_cases ha : idx a = j
        · subst ha
          simp [hj]
        · simp [hj, ha]
      · simp [hj]
    · simp [hp]

theorem length_foldl_write {α : Type} (p : α → Prop) [DecidablePred p] (idx : α → Nat)
    (f : Nat → ℚ) (l : List α) (out : Grid) :
    (l.foldl (fun o i => if p i then o.set (idx i) (f (idx i)) else o) out).length
      = out.length := by
  induction l generalizing out with
  | nil => rfl
  | cons a t ih =>
    rw [List.foldl_cons, ih]
    split <;> simp

theorem stencil_cpu_eq (inp out : Grid) (N : Nat) :
    stencil_cpu inp out N = (List.range (N * N)).foldl (fun o i =>
      if interior N i then
        o.set (i % N + i / N * N) (stencil_cell inp N (i % N + i / N * N)) else o) out := rfl

theorem rd_stencil_cpu (inp out : Grid) (N j : Nat) :
    rd (stencil_cpu inp out N) j
      = if j < out.length ∧ j < N * N ∧ interior N j then stencil_cell inp N j
        else rd out j := by
  rw [stencil_cpu_eq,
    rd_foldl_write (interior N) (fun i => i % N + i / N * N) (stencil_cell inp N)]
  congr 1
  apply propext
  constructor
  · rintro ⟨h1, i, hi, hp, rfl⟩
    have : i % N + i / N * N = i := Nat.mod_add_div' i N
    rw [this] at h1 ⊢
    exact ⟨h1, List.mem_range.mp hi, hp⟩
  · rintro ⟨h1, h2, h3⟩
    exact ⟨h1, j, List.mem_range.mpr h2, h3, Nat.mod_add_div' j N⟩

theorem length_stencil_cpu (inp out : Grid) (N : Nat) :
    (stencil_cpu inp out N).length = out.length := by
  rw [stencil_cpu_eq,
    length_foldl_write (interior N) (fun i => i % N + i / N * N) (stencil_cell inp N)]

theorem interior_lt (N j : Nat) (h : interior N j) : j < N * N := by
  obtain ⟨_, _, h3, h4⟩ := h
  have h5 : j % N + N * (j / N) = j := Nat.mod_add_div j N
  have h6 : N * (j / N) ≤ N * (N - 2) := Nat.mul_le_mul_left N (by omega)
  have h7 : N * (N - 2) + 2 * N = N * N := by
    have : N - 2 + 2 = N := by omega
    calc N * (N - 2) + 2 * N = N * (N - 2 + 2) := by ring
      _ = N * N := by rw [this]
  omega

theorem interior_of_coords (N x y : Nat) (hx : 0 < x) (hx2 : x < N - 1) (hy : 0 < y)
    (hy2 : y < N - 1) : interior N (x + y * N) ∧ (x + y * N) % N = x ∧ (x + y * N) / N = y := by
  have hxN : x < N := by omega
  have h1 : (x + y * N) % N = x := by
    rw [Nat.add_mul_mod_self_right, Nat.mod_eq_of_lt hxN]
  have h2 : (x + y * N) / N = y := by
    rw [Nat.add_mul_div_right _ _ (by omega : 0 < N), Nat.div_eq_of_lt hxN, Nat.zero_add]
  refine ⟨?_, h1, h2⟩
  unfold interior
  rw [h1, h2]
  exact ⟨hx, hy, hx2, hy2⟩

theorem stencil_cell_eq_clamp (inp : Grid) (N id : Nat) :
    stencil_cell inp N id
      = clamp (rd inp id + 0.24 * (rd inp (id - N) + rd inp (id + N) + rd inp (id - 1)
          + rd inp (id + 1) + (-4 * rd inp id))) 0 127 := by
  unfold stencil_cell clamp
  simp only []
  have e : (rd inp (id - N) + rd inp (id + N) + rd inp (id - 1) + rd inp (id + 1)
      + -4.0 * rd inp id) * 0.24 + rd inp id
      = rd inp id + 0.24 * (rd inp (id - N) + rd inp (id + N) + rd inp (id - 1)
          + rd inp (id + 1) + (-4 * rd inp id)) := by
    norm_num
    ring
  rw [e]
  generalize rd inp id + 0.24 * (rd inp (id - N) + rd inp (id + N) + rd inp (id - 1)
          + rd inp (id + 1) + (-4 * rd inp id)) = v
  by_cases h : v > 127
  · have h0 : ¬ ((127 : ℚ) < 0) := by norm_num
    rw [if_pos h, if_neg h0, min_eq_right (le_of_lt h), max_eq_right (by norm_num)]
  · rw [if_neg h, min_eq_left (le_of_not_lt h)]
    by_cases h2 : v < 0
    · rw [if_pos h2, max_eq_left (le_of_lt h2)]
    · rw [if_neg h2, max_eq_right (le_of_not_lt h2)]

theorem stencil_cell_range (inp : Grid) (N id : Nat) :
    0 ≤ stencil_cell inp N id ∧ stencil_cell inp N id ≤ 127 := by
  rw [stencil_cell_eq_clamp]
  unfold clamp
  exact ⟨le_max_left _ _, max_le (by norm_num) (min_le_right _ _)⟩

theorem rd_stencil_cpu_of_not_interior (inp out : Grid) (N j : Nat) (h : ¬ interior N j) :
    rd (stencil_cpu inp out N) j = rd out j := by
  rw [rd_stencil_cpu, if_neg (fun hh => h hh.2.2)]

theorem not_interior_of_boundary (N j : Nat)
    (hb : j % N = 0 ∨ j % N = N - 1 ∨ j / N = 0 ∨ j / N = N - 1) : ¬ interior N j := by
  unfold interior
  omega

/-- Both buffers of the reference loop keep, at a cell no pass writes, the value the two
buffers shared at the start. -/
theorem rd_cpu_loop_of_not_interior (N j : Nat) (v : ℚ) (h : ¬ interior N j) (T : Nat) :
    ∀ A B : Grid, rd A j = v → rd B j = v →
      rd (cpu_loop T (A, B) N).1 j = v ∧ rd (cpu_loop T (A, B) N).2 j = v := by
  induction T with
  | zero => intro A B hA hB; exact ⟨hA, hB⟩
  | succ T ih =>
    intro A B hA hB
    show rd (cpu_loop T (stencil_cpu A B N, A) N).1 j = v
      ∧ rd (cpu_loop T (stencil_cpu A B N, A) N).2 j = v
    exact ih _ _ (by rw [rd_stencil_cpu_of_not_interior _ _ _ _ h]; exact hB) hA

theorem length_cpu_loop (N n T : Nat) :
    ∀ A B : Grid, A.length = n → B.length = n →
      (cpu_loop T (A, B) N).1.length = n ∧ (cpu_loop T (A, B) N).2.length = n := by
  induction T with
  | zero => intro A B hA hB; exact ⟨hA, hB⟩
  | succ T ih =>
    intro A B hA hB
    show (cpu_loop T (stencil_cpu A B N, A) N).1.length = n
      ∧ (cpu_loop T (stencil_cpu A B N, A) N).2.length = n
    exact ih _ _ (by rw [length_stencil_cpu]; exact hB) hA

/-! ## C1: the update rule at an interior cell -/

theorem rd_stencil_cpu_coords (inp out : Grid) (N x y : Nat) (hout : out.length = N * N)
    (hx : 0 < x) (hx2 : x < N - 1) (hy : 0 < y) (hy2 : y < N - 1) :
    rd (stencil_cpu inp out N) (x + y * N) = stencil_cell inp N (x + y * N) := by
  obtain ⟨hi, _, _⟩ := interior_of_coords N x y hx hx2 hy hy2
  have hlt := interior_lt N _ hi
  rw [rd_stencil_cpu, if_pos ⟨by omega, hlt, hi⟩]


/-- C1: for every grid side `N`, source `inp`, destination `out` of `N * N` cells and interior
cell `(x, y)` with `id = x + y * N`, one pass of `stencil_cpu` leaves in `out[id]` the value
`clamp(in[id] + 0.24 * (in[id-N] + in[id+N] + in[id-1] + in[id+1] + (-4 * in[id])), 0, 127)`,
every value read from `inp` as it was before the pass; the four neighbour reads are inside the
buffer. -/
theorem stencil_cpu_interior (inp out : Grid) (N x y : Nat) (hout : out.length = N * N)
    (hx : 0 < x) (hx2 : x < N - 1) (hy : 0 < y) (hy2 : y < N - 1) :
    rd (stencil_cpu inp out N) (x + y * N)
      = clamp (rd inp (x + y * N) + 0.24 * (rd inp (x + y * N - N) + rd inp (x + y * N + N)
          + rd inp (x + y * N - 1) + rd inp (x + y * N + 1) + (-4 * rd inp (x + y * N)))) 0 127
    ∧ N ≤ x + y * N ∧ x + y * N + N < N * N := by
  have hyN : 1 * N ≤ y * N := Nat.mul_le_mul_right N hy
  have hyN2 : (y + 2) * N ≤ N * N := by
    rw [Nat.mul_comm N N]
    exact Nat.mul_le_mul_right N (by omega)
  refine ⟨?_, by omega, ?_⟩
  · rw [rd_stencil_cpu_coords inp out N x y hout hx hx2 hy hy2, stencil_cell_eq_clamp]
  · have : (y + 2) * N = y * N + 2 * N := by ring
    omega

/-- C1 at `N = 4`: with the cells 1, 2, 3 at 127, the interior cell `(1, 1)` holds 30.48
after one pass. -/
theorem stencil_cpu_interior_witness : rd (stencil_cpu g4 g4 4) (1 + 1 * 4) = 30.48 :=
  (stencil_cpu_interior g4 g4 4 1 1 rfl (by decide) (by decide) (by decide) (by decide)).1.trans
    (by norm_num [clamp, rd, g4])

/-! ## C4: boundary cells -/

/-- C4: for two buffers holding the same initial grid `g`, a boundary cell (`x` or `y` equal to
0 or to `N - 1`) of the current buffer after `T` steps of the reference loop holds the value it
had in `g`, and a single pass of `stencil_cpu` leaves a boundary cell of its destination as it
was. -/
theorem boundary_invariant (N T j : Nat) (g inp out : Grid)
    (hb : j % N = 0 ∨ j % N = N - 1 ∨ j / N = 0 ∨ j / N = N - 1) :
    rd (cpu_loop T (g, g) N).1 j = rd g j ∧ rd (stencil_cpu inp out N) j = rd out j :=
  ⟨(rd_cpu_loop_of_not_interior N j (rd g j) (not_interior_of_boundary N j hb) T g g rfl rfl).1,
    rd_stencil_cpu_of_not_interior inp out N j (not_interior_of_boundary N j hb)⟩

/-- C4 at `N = 4`, three steps from `g4`, cell `(2, 0)`: the seeded boundary cell still holds
127. -/
theorem boundary_invariant_witness :
    (2 % 4 = 0 ∨ 2 % 4 = 4 - 1 ∨ 2 / 4 = 0 ∨ 2 / 4 = 4 - 1)
      ∧ rd (cpu_loop 3 (g4, g4) 4).1 2 = 127 :=
  ⟨by decide, (boundary_invariant 4 3 2 g4 g4 g4 (by decide)).1.trans (by norm_num [rd, g4])⟩

/-! ## C2: the ping-pong loop computes the iterated step -/

theorem length_step (N : Nat) (g : Grid) : (step N g).length = N * N := by
  simp [step]

theorem rd_step (N : Nat) (g : Grid) (j : Nat) (hj : j < N * N) :
    rd (step N g) j = if interior N j then stencil_cell g N j else rd g j := by
  have hl : j < (step N g).length := by rw [length_step]; exact hj
  have e : rd (step N g) j = (step N g)[j] := by
    simp [rd, List.getElem?_eq_getElem hl]
  rw [e]
  simp only [step, List.getElem_map, List.getElem_range]
  by_cases h : interior N j
  · have h2 : 0 < j % N ∧ j % N < N - 1 ∧ 0 < j / N ∧ j / N < N - 1 :=
      ⟨h.1, h.2.2.1, h.2.1, h.2.2.2⟩
    rw [if_pos h, if_pos h2, stencil_cell_eq_clamp]
  · have h2 : ¬ (0 < j % N ∧ j % N < N - 1 ∧ 0 < j / N ∧ j / N < N - 1) :=
      fun hh => h ⟨hh.1, hh.2.2.1, hh.2.1, hh.2.2.2⟩
    rw [if_neg h, if_neg h2]

/-- A pass into a destination that agrees with the source on the cells no pass writes is the
pure step of the source. -/
theorem stencil_cpu_eq_step (N : Nat) (A B : Grid) (hB : B.length = N * N) (hAB : ∀ j, ¬ interior N j → rd B j = rd A j) :
    stencil_cpu A B N = step N A := by
  apply grid_ext
  · rw [length_stencil_cpu, length_step, hB]
  · intro j hj
    rw [length_stencil_cpu, hB] at hj
    rw [rd_stencil_cpu, rd_step N A j hj]
    by_cases h : interior N j
    · rw [if_pos ⟨by omega, hj, h⟩, if_pos h]
    · rw [if_neg (fun hh => h hh.2.2), if_neg h]
      exact hAB j h

theorem cpu_loop_eq_iterate (N T : Nat) :
    ∀ A B : Grid, A.length = N * N → B.length = N * N →
      (∀ j, ¬ interior N j → rd B j = rd A j) →
      (cpu_loop T (A, B) N).1 = (step N)^[T] A := by
  induction T with
  | zero => intro A B _ _ _; rfl
  | succ T ih =>
    intro A B hA hB hAB
    show (cpu_loop T (stencil_cpu A B N, A) N).1 = (step N)^[T + 1] A
    rw [Function.iterate_succ_apply, ← stencil_cpu_eq_step N A B hB hAB]
    apply ih
    · rw [length_stencil_cpu]; exact hB
    · exact hA
    · intro j hj
      rw [rd_stencil_cpu_of_not_interior _ _ _ _ hj]
      exact (hAB j hj).symm

/-- C2: for two buffers that both hold the grid `g` of `N * N` cells, the reference loop of
`main` run for `T` steps ends with the current buffer `gridA_h` holding `step` iterated `T`
times on `g`, for every `T` (odd or even); for `T = 0` it is `g` itself. -/
theorem cpu_loop_refines_step (N T : Nat) (g : Grid) (hg : g.length = N * N) :
    (cpu_loop T (g, g) N).1 = (step N)^[T] g ∧ (cpu_loop 0 (g, g) N).1 = g :=
  ⟨cpu_loop_eq_iterate N T g g hg hg (fun _ _ => rfl), rfl⟩

/-- C2 at `N = 4`, three steps (an odd count) from `g4`. -/
theorem cpu_loop_refines_step_witness :
    g4.length = 4 * 4 ∧ (cpu_loop 3 (g4, g4) 4).1 = (step 4)^[3] g4 :=
  ⟨rfl, (cpu_loop_refines_step 4 3 g4 rfl).1⟩

/-! ## C10: the zero grid -/

theorem rd_zeroGrid (N j : Nat) : rd (zeroGrid N) j = 0 := by
  unfold rd zeroGrid
  by_cases h : j < N * N
  · simp [List.getElem?_replicate, h]
  · simp [List.getElem?_replicate, h]

theorem stencil_cell_zeroGrid (N id : Nat) : stencil_cell (zeroGrid N) N id = 0 := by
  unfold stencil_cell
  simp [rd_zeroGrid]

theorem stencil_cpu_zeroGrid (N : Nat) :
    stencil_cpu (zeroGrid N) (zeroGrid N) N = zeroGrid N := by
  apply grid_ext
  · rw [length_stencil_cpu]
  · intro j _
    rw [rd_stencil_cpu, stencil_cell_zeroGrid, rd_zeroGrid]
    simp

/-- C10: if both buffers are all-zero, then after `T` steps of the reference loop the current
buffer and the other buffer are still all-zero. -/
theorem zero_grid_fixed (N T : Nat) :
    cpu_loop T (zeroGrid N, zeroGrid N) N = (zeroGrid N, zeroGrid N)
      ∧ ∀ j, rd (cpu_loop T (zeroGrid N, zeroGrid N) N).1 j = 0
          ∧ rd (cpu_loop T (zeroGrid N, zeroGrid N) N).2 j = 0 := by
  have h : cpu_loop T (zeroGrid N, zeroGrid N) N = (zeroGrid N, zeroGrid N) := by
    induction T with
    | zero => rfl
    | succ T ih =>
      show cpu_loop T (stencil_cpu (zeroGrid N) (zeroGrid N) N, zeroGrid N) N = _
      rw [stencil_cpu_zeroGrid, ih]
  rw [h]
  exact ⟨rfl, fun j => ⟨rd_zeroGrid N j, rd_zeroGrid N j⟩⟩

/-! ## Rounding -/

theorem roundPos_eval (p : Nat) (q : ℚ) (e f : ℤ) (r : ℚ) (hq : 0 < q)
    (hlo : (2 : ℚ) ^ (e + ((p : ℤ) - 1)) ≤ q) (hhi : q < (2 : ℚ) ^ (e + ((p : ℤ) - 1) + 1))
    (hf1 : (f : ℚ) ≤ q / (2 : ℚ) ^ e) (hf2 : q / (2 : ℚ) ^ e < (f : ℚ) + 1)
    (hr : r = (((if q / (2 : ℚ) ^ e - f < 1 / 2 then f
        else if 1 / 2 < q / (2 : ℚ) ^ e - f then f + 1
        else if f % 2 = 0 then f else f + 1 : ℤ) : ℚ)) * (2 : ℚ) ^ e) :
    roundPos p q = r := by
  have hlog : Int.log 2 q = e + ((p : ℤ) - 1) := by
    apply le_antisymm
    · have := (Int.lt_zpow_iff_log_lt (R := ℚ) (b := 2) (by norm_num) hq
        (x := e + ((p : ℤ) - 1) + 1)).mp (by exact_mod_cast hhi)
      omega
    · exact (Int.zpow_le_iff_le_log (R := ℚ) (b := 2) (by norm_num) hq).mp (by exact_mod_cast hlo)
  have he : Int.log 2 q - ((p : ℤ) - 1) = e := by rw [hlog]; ring
  have hfl : ⌊q / (2 : ℚ) ^ e⌋ = f := by
    rw [Int.floor_eq_iff]
    exact ⟨hf1, hf2⟩
  unfold roundPos
  simp only [he, hfl]
  exact hr.symm

theorem zpow_pred_cast (p : Nat) (hp : 1 ≤ p) :
    (2 : ℚ) ^ ((p : ℤ) - 1) = (((2 : ℤ) ^ (p - 1) : ℤ) : ℚ) := by
  obtain ⟨k, rfl⟩ : ∃ k, p = k + 1 := ⟨p - 1, by omega⟩
  have : ((k + 1 : ℕ) : ℤ) - 1 = (k : ℤ) := by push_cast; ring
  rw [this, zpow_natCast]
  simp

theorem zpow_cast (p : Nat) : (2 : ℚ) ^ (p : ℤ) = (((2 : ℤ) ^ p : ℤ) : ℚ) := by
  rw [zpow_natCast]
  simp

/-- A value with a normalised `p`-bit significand is its own rounding. -/
theorem roundPos_normal (p : Nat) (m e : ℤ) (hp : 1 ≤ p) (h1 : (2 : ℤ) ^ (p - 1) ≤ m)
    (h2 : m < (2 : ℤ) ^ p) : roundPos p ((m : ℚ) * (2 : ℚ) ^ e) = (m : ℚ) * (2 : ℚ) ^ e := by
  have h2e : (0 : ℚ) < (2 : ℚ) ^ e := zpow_pos (by norm_num) e
  have hmpos : (0 : ℤ) < m := lt_of_lt_of_le (pow_pos (by norm_num) _) h1
  have hmq : (0 : ℚ) < (m : ℚ) := by exact_mod_cast hmpos
  have hdiv : (m : ℚ) * (2 : ℚ) ^ e / (2 : ℚ) ^ e = (m : ℚ) := by
    field_simp
  have h1q : (((2 : ℤ) ^ (p - 1) : ℤ) : ℚ) ≤ (m : ℚ) := by exact_mod_cast h1
  have h2q : (m : ℚ) < (((2 : ℤ) ^ p : ℤ) : ℚ) := by exact_mod_cast h2
  apply roundPos_eval p _ e m _ (mul_pos hmq h2e)
  · rw [zpow_add₀ (by norm_num : (2 : ℚ) ≠ 0), zpow_pred_cast p hp, mul_comm]
    exact mul_le_mul_of_nonneg_right h1q h2e.le
  · have : e + ((p : ℤ) - 1) + 1 = e + (p : ℤ) := by ring
    rw [this, zpow_add₀ (by norm_num : (2 : ℚ) ≠ 0), zpow_cast]
    have := mul_lt_mul_of_pos_right h2q h2e
    linarith
  · rw [hdiv]
  · rw [hdiv]; linarith
  · rw [hdiv, sub_self, if_pos (by norm_num)]

/-- The rounding of a positive rational has the form `m * 2 ^ e` with `m` between
`2 ^ (p - 1)` and `2 ^ p`. -/
theorem roundPos_form (p : Nat) (q : ℚ) (hp : 1 ≤ p) (hq : 0 < q) :
    ∃ m e : ℤ, (2 : ℤ) ^ (p - 1) ≤ m ∧ m ≤ (2 : ℤ) ^ p
      ∧ roundPos p q = (m : ℚ) * (2 : ℚ) ^ e := by
  have h2e : (0 : ℚ) < (2 : ℚ) ^ (Int.log 2 q - ((p : ℤ) - 1)) := zpow_pos (by norm_num) _
  have hlo : (2 : ℚ) ^ ((p : ℤ) - 1) ≤ q / (2 : ℚ) ^ (Int.log 2 q - ((p : ℤ) - 1)) := by
    rw [le_div_iff₀ h2e, ← zpow_add₀ (by norm_num : (2 : ℚ) ≠ 0)]
    have : (p : ℤ) - 1 + (Int.log 2 q - ((p : ℤ) - 1)) = Int.log 2 q := by ring
    rw [this]
    exact_mod_cast Int.zpow_log_le_self (R := ℚ) (b := 2) (by norm_num) hq
  have hhi : q / (2 : ℚ) ^ (Int.log 2 q - ((p : ℤ) - 1)) < (2 : ℚ) ^ (p : ℤ) := by
    rw [div_lt_iff₀ h2e, ← zpow_add₀ (by norm_num : (2 : ℚ) ≠ 0)]
    have : (p : ℤ) + (Int.log 2 q - ((p : ℤ) - 1)) = Int.log 2 q + 1 := by ring
    rw [this]
    exact_mod_cast Int.lt_zpow_succ_log_self (R := ℚ) (b := 2) (by norm_num) q
  rw [zpow_pred_cast p hp] at hlo
  rw [zpow_cast] at hhi
  have hf1 : (2 : ℤ) ^ (p - 1) ≤ ⌊q / (2 : ℚ) ^ (Int.log 2 q - ((p : ℤ) - 1))⌋ :=
    Int.le_floor.mpr hlo
  have hf2 : ⌊q / (2 : ℚ) ^ (Int.log 2 q - ((p : ℤ) - 1))⌋ < (2 : ℤ) ^ p :=
    Int.floor_lt.mpr hhi
  refine ⟨_, Int.log 2 q - ((p : ℤ) - 1), ?_, ?_, rfl⟩
  · split_ifs <;> omega
  · split_ifs <;> omega

theorem roundPos_pos (p : Nat) (q : ℚ) (hp : 1 ≤ p) (hq : 0 < q) : 0 < roundPos p q := by
  obtain ⟨m, e, h1, -, h⟩ := roundPos_form p q hp hq
  rw [h]
  have hmpos : (0 : ℤ) < m := lt_of_lt_of_le (pow_pos (by norm_num) _) h1
  exact mul_pos (by exact_mod_cast hmpos) (zpow_pos (by norm_num) e)

theorem roundPos_idem (p : Nat) (q : ℚ) (hp : 1 ≤ p) (hq : 0 < q) :
    roundPos p (roundPos p q) = roundPos p q := by
  obtain ⟨m, e, h1, h2, h⟩ := roundPos_form p q hp hq
  rw [h]
  rcases lt_or_eq_of_le h2 with h3 | h3
  · exact roundPos_normal p m e hp h1 h3
  · have e1 : (m : ℚ) * (2 : ℚ) ^ e = (((2 : ℤ) ^ (p - 1) : ℤ) : ℚ) * (2 : ℚ) ^ (e + 1) := by
      rw [h3, zpow_add₀ (by norm_num : (2 : ℚ) ≠ 0)]
      obtain ⟨k, rfl⟩ : ∃ k, p = k + 1 := ⟨p - 1, by omega⟩
      simp only [Nat.add_sub_cancel]
      push_cast
      ring
    rw [e1]
    exact roundPos_normal p _ (e + 1) hp (le_refl _)
      (pow_lt_pow_right₀ (by norm_num) (by omega))

theorem roundPos_nat (p n : Nat) (e : ℤ) (hp : 1 ≤ p) (hn : 0 < n) (hn2 : n < 2 ^ p) :
    roundPos p ((n : ℚ) * (2 : ℚ) ^ e) = (n : ℚ) * (2 : ℚ) ^ e := by
  have hlog1 : 2 ^ Nat.log 2 n ≤ n := Nat.pow_log_le_self 2 (by omega)
  have hlog2 : n < 2 ^ (Nat.log 2 n + 1) := Nat.lt_pow_succ_log_self (by norm_num) n
  have hlt : Nat.log 2 n < p := by
    have : 2 ^ Nat.log 2 n < 2 ^ p := lt_of_le_of_lt hlog1 hn2
    exact (Nat.pow_lt_pow_iff_right (by norm_num)).mp this
  obtain ⟨t, ht⟩ : ∃ t, p - 1 = Nat.log 2 n + t := ⟨p - 1 - Nat.log 2 n, by omega⟩
  have hp2 : p = Nat.log 2 n + 1 + t := by omega
  have h1 : (2 : ℤ) ^ (p - 1) ≤ ((n * 2 ^ t : ℕ) : ℤ) := by
    have : 2 ^ (p - 1) ≤ n * 2 ^ t := by
      rw [ht, pow_add]
      exact Nat.mul_le_mul_right _ hlog1
    exact_mod_cast this
  have h2 : ((n * 2 ^ t : ℕ) : ℤ) < (2 : ℤ) ^ p := by
    have : n * 2 ^ t < 2 ^ p := by
      rw [hp2, pow_add]
      exact Nat.mul_lt_mul_of_pos_right hlog2 (pow_pos (by norm_num) _)
    exact_mod_cast this
  have e1 : (n : ℚ) * (2 : ℚ) ^ e
      = (((n * 2 ^ t : ℕ) : ℤ) : ℚ) * (2 : ℚ) ^ (e - (t : ℤ)) := by
    rw [zpow_sub₀ (by norm_num : (2 : ℚ) ≠ 0), zpow_natCast]
    push_cast
    field_simp
    ring
  rw [e1]
  exact roundPos_normal p _ _ hp h1 h2

theorem roundNE_zero (p : Nat) : roundNE p 0 = 0 := by
  simp [roundNE]

theorem roundNE_of_pos (p : Nat) (q : ℚ) (hq : 0 < q) : roundNE p q = roundPos p q := by
  unfold roundNE
  rw [if_neg (ne_of_gt hq), if_pos hq]

theorem roundNE_neg (p : Nat) (q : ℚ) : roundNE p (-q) = -roundNE p q := by
  unfold roundNE
  rcases lt_trichotomy q 0 with h | h | h
  · rw [if_neg (by linarith : ¬ -q = 0), if_pos (by linarith : 0 < -q),
      if_neg (ne_of_lt h), if_neg (by linarith : ¬ 0 < q), neg_neg]
  · subst h
    simp
  · rw [if_neg (by linarith : ¬ -q = 0), if_neg (by linarith : ¬ 0 < -q),
      if_neg (ne_of_gt h), if_pos h, neg_neg]

theorem roundNE_nonneg (p : Nat) (q : ℚ) (hp : 1 ≤ p) (hq : 0 ≤ q) : 0 ≤ roundNE p q := by
  rcases eq_or_lt_of_le hq with h | h
  · rw [← h, roundNE_zero]
  · rw [roundNE_of_pos p q h]
    exact (roundPos_pos p q hp h).le

theorem roundNE_pos (p : Nat) (q : ℚ) (hp : 1 ≤ p) (hq : 0 < q) : 0 < roundNE p q := by
  rw [roundNE_of_pos p q hq]
  exact roundPos_pos p q hp hq

theorem roundNE_idem (p : Nat) (q : ℚ) (hp : 1 ≤ p) (hq : 0 < q) :
    roundNE p (roundNE p q) = roundNE p q := by
  rw [roundNE_of_pos p q hq, roundNE_of_pos p _ (roundPos_pos p q hp hq),
    roundPos_idem p q hp hq]

theorem roundNE_nat (p n : Nat) (e : ℤ) (hp : 1 ≤ p) (hn2 : n < 2 ^ p) :
    roundNE p ((n : ℚ) * (2 : ℚ) ^ e) = (n : ℚ) * (2 : ℚ) ^ e := by
  rcases Nat.eq_zero_or_pos n with h | h
  · subst h
    simp [roundNE_zero]
  · have hpos : (0 : ℚ) < (n : ℚ) * (2 : ℚ) ^ e :=
      mul_pos (by exact_mod_cast h) (zpow_pos (by norm_num) e)
    rw [roundNE_of_pos p _ hpos, roundPos_nat p n e hp h hn2]

theorem roundNE_one (p : Nat) (hp : 1 ≤ p) : roundNE p 1 = 1 := by
  have := roundNE_nat p 1 0 hp (Nat.one_lt_two_pow (by omega))
  simpa using this

/-! ## C6: `relNumDiffEl` -/

theorem foldl_cond_iterate (P : Nat → Prop) [DecidablePred P] (g : ℚ → ℚ) (l : List Nat)
    (r : ℚ) :
    l.foldl (fun res i => if P i then g res else res) r
      = g^[(l.filter (fun i => decide (P i))).length] r := by
  induction l generalizing r with
  | nil => rfl
  | cons x t ih =>
    rw [List.foldl_cons, ih]
    by_cases h : P x
    · simp only [h, if_true, List.filter_cons, decide_True, List.length_cons,
        Function.iterate_succ_apply]
    · simp [h, List.filter_cons]

/-- The result of `relNumDiffEl` is the step `res += 1. / (float) (N * N)` repeated once per
index that passes the test. -/
theorem relNumDiffEl_eq_iterate (a b : Grid) (N : Nat) :
    relNumDiffEl a b N
      = (fun r => toDouble (r + toDouble (1 / toFloat ((N * N : Nat) : ℚ))))^[numDiff a b N]
          0 :=
  foldl_cond_iterate (fun i => |toFloat (rd a i - rd b i)| > toDouble 1e-6)
    (fun r => toDouble (r + toDouble (1 / toFloat ((N * N : Nat) : ℚ)))) _ 0

/-- The `double` literal `1e-6`. -/
theorem toDouble_threshold :
    toDouble 1e-6 = 4722366482869645 / 4722366482869645213696 := by
  rw [toDouble, roundNE_of_pos _ _ (by norm_num)]
  exact roundPos_eval 53 _ (-72) 4722366482869645 _ (by norm_num) (by norm_num)
        (by norm_num) (by norm_num) (by norm_num) (by norm_num)

theorem test_of_eq (x y : ℚ) (h : x = y) : ¬ |toFloat (x - y)| > toDouble 1e-6 := by
  rw [h, sub_self, toFloat, roundNE_zero, abs_zero, toDouble_threshold]
  norm_num

theorem test_of_abs_one (x y : ℚ) (h : |x - y| = 1) :
    |toFloat (x - y)| > toDouble 1e-6 := by
  have h1 : |toFloat (x - y)| = 1 := by
    rcases (abs_eq (by norm_num : (0 : ℚ) ≤ 1)).mp h with h | h
    · rw [h, toFloat, roundNE_one 24 (by norm_num), abs_one]
    · rw [h, toFloat, roundNE_neg, roundNE_one 24 (by norm_num), abs_neg, abs_one]
  rw [h1, toDouble_threshold]
  norm_num

theorem numDiff_le (a b : Grid) (N : Nat) : numDiff a b N ≤ N * N := by
  unfold numDiff
  calc _ ≤ (List.range (N * N)).length := List.length_filter_le _ _
    _ = N * N := List.length_range _

theorem numDiff_self (g : Grid) (N : Nat) : numDiff g g N = 0 := by
  unfold numDiff
  rw [List.length_eq_zero, List.filter_eq_nil_iff]
  intro i _
  simpa using test_of_eq (rd g i) (rd g i) rfl

theorem numDiff_all (a b : Grid) (N : Nat)
    (h : ∀ i, i < N * N → |rd a i - rd b i| = 1) : numDiff a b N = N * N := by
  unfold numDiff
  rw [List.filter_eq_self.mpr, List.length_range]
  intro i hi
  simpa using test_of_abs_one _ _ (h i (List.mem_range.mp hi))

theorem numDiff_single (a b : Grid) (N i0 : Nat) (hi : i0 < N * N)
    (hd : |rd a i0 - rd b i0| = 1) (hs : ∀ i, i < N * N → i ≠ i0 → rd a i = rd b i) :
    numDiff a b N = 1 := by
  unfold numDiff
  rw [← List.countP_eq_length_filter]
  have e : List.countP (fun i => decide (|toFloat (rd a i - rd b i)| > toDouble 1e-6))
      (List.range (N * N)) = List.countP (fun i => i == i0) (List.range (N * N)) := by
    apply List.countP_congr
    intro i hi2
    have hi3 : i < N * N := List.mem_range.mp hi2
    by_cases h : i = i0
    · subst h
      simpa using test_of_abs_one _ _ hd
    · have := test_of_eq _ _ (hs i hi3 h)
      simpa [h] using this
  rw [e]
  exact List.count_eq_one_of_mem (List.nodup_range _) (List.mem_range.mpr hi)

theorem step_nonneg (n : Nat) : 0 ≤ toDouble (1 / toFloat (n : ℚ)) := by
  apply roundNE_nonneg 53 _ (by norm_num)
  exact div_nonneg (by norm_num)
    (roundNE_nonneg 24 _ (by norm_num) (Nat.cast_nonneg n))

theorem step_idem (n : Nat) (hn : 0 < n) :
    toDouble (0 + toDouble (1 / toFloat (n : ℚ))) = toDouble (1 / toFloat (n : ℚ)) := by
  rw [zero_add]
  have h1 : (0 : ℚ) < toFloat (n : ℚ) :=
    roundNE_pos 24 _ (by norm_num) (by exact_mod_cast hn)
  exact roundNE_idem 53 _ (by norm_num) (div_pos (by norm_num) h1)

theorem accumulate_nonneg (c : ℚ) (hc : 0 ≤ c) (k : Nat) :
    0 ≤ (fun r => toDouble (r + c))^[k] 0 := by
  induction k with
  | zero => exact le_refl _
  | succ k ih =>
    rw [Function.iterate_succ_apply']
    exact roundNE_nonneg 53 _ (by norm_num) (add_nonneg ih hc)

theorem relNumDiffEl_nonneg (a b : Grid) (N : Nat) : 0 ≤ relNumDiffEl a b N := by
  rw [relNumDiffEl_eq_iterate]
  exact accumulate_nonneg _ (step_nonneg _) _

theorem relNumDiffEl_single (a b : Grid) (N i0 : Nat) (hi : i0 < N * N)
    (hd : |rd a i0 - rd b i0| = 1) (hs : ∀ i, i < N * N → i ≠ i0 → rd a i = rd b i) :
    relNumDiffEl a b N = toDouble (1 / toFloat ((N * N : Nat) : ℚ)) := by
  rw [relNumDiffEl_eq_iterate, numDiff_single a b N i0 hi hd hs]
  exact step_idem (N * N) (by omega)

/-- For a grid side that is a power of two the step is the exact `1 / N ^ 2`. -/
theorem step_pow_two (m : Nat) :
    toDouble (1 / toFloat ((2 ^ m * 2 ^ m : Nat) : ℚ)) = (2 : ℚ) ^ (-((2 * m : Nat) : ℤ)) := by
  have e1 : ((2 ^ m * 2 ^ m : Nat) : ℚ) = ((1 : Nat) : ℚ) * (2 : ℚ) ^ ((2 * m : Nat) : ℤ) := by
    rw [zpow_natCast]
    push_cast
    ring
  rw [e1, toFloat, roundNE_nat 24 1 _ (by norm_num) (by norm_num)]
  have e2 : (1 : ℚ) / (((1 : Nat) : ℚ) * (2 : ℚ) ^ ((2 * m : Nat) : ℤ))
      = ((1 : Nat) : ℚ) * (2 : ℚ) ^ (-((2 * m : Nat) : ℤ)) := by
    rw [zpow_neg]
    push_cast
    field_simp
  rw [e2, toDouble, roundNE_nat 53 1 _ (by norm_num) (by norm_num)]
  simp

theorem accumulate_zpow (z : ℤ) (k : Nat) (hk : k < 2 ^ 53) :
    (fun r => toDouble (r + (2 : ℚ) ^ z))^[k] 0 = (k : ℚ) * (2 : ℚ) ^ z := by
  induction k with
  | zero => simp
  | succ k ih =>
    rw [Function.iterate_succ_apply', ih (by omega)]
    have e : (k : ℚ) * (2 : ℚ) ^ z + (2 : ℚ) ^ z = ((k + 1 : Nat) : ℚ) * (2 : ℚ) ^ z := by
      push_cast
      ring
    show toDouble ((k : ℚ) * (2 : ℚ) ^ z + (2 : ℚ) ^ z) = _
    rw [e, toDouble, roundNE_nat 53 (k + 1) z (by norm_num) hk]

theorem relNumDiffEl_pow_two (a b : Grid) (N m : Nat) (hN : N = 2 ^ m)
    (hint : N * N < 2 ^ 31) :
    relNumDiffEl a b N = (numDiff a b N : ℚ) / (N : ℚ) ^ 2 := by
  have hk : numDiff a b N < 2 ^ 53 :=
    lt_of_le_of_lt (numDiff_le a b N) (lt_trans hint (by norm_num))
  rw [relNumDiffEl_eq_iterate]
  generalize numDiff a b N = k at hk
  subst hN
  rw [step_pow_two, accumulate_zpow _ k hk, zpow_neg, zpow_natCast]
  push_cast
  rw [div_eq_mul_inv]
  congr 2
  ring

/-- C6, as the code has it: `relNumDiffEl(a, b, N)` is the `double` reached from 0 by adding
the `double` `1. / (float) (N * N)`, each sum rounded, once for every index below `N * N` with
`fabs(a[i] - b[i]) > 1e-6`; it is not negative; two grids that differ in exactly one cell, by
1, give the `double` `1. / (float) (N * N)`; and when `N` is a power of two with `N * N` in
the range of `int`, the result is `k / N^2` for the number `k` of such indices, and at
most 1. -/
theorem relNumDiffEl_rounded (a b : Grid) (N : Nat) :
    relNumDiffEl a b N
        = (fun r => toDouble (r + toDouble (1 / toFloat ((N * N : Nat) : ℚ))))^[
            ((List.range (N * N)).filter
              (fun i => decide (|toFloat (rd a i - rd b i)| > toDouble 1e-6))).length] 0
      ∧ 0 ≤ relNumDiffEl a b N
      ∧ (∀ i0, i0 < N * N → |rd a i0 - rd b i0| = 1 →
          (∀ i, i < N * N → i ≠ i0 → rd a i = rd b i) →
          relNumDiffEl a b N = toDouble (1 / toFloat ((N * N : Nat) : ℚ)))
      ∧ (∀ m, N = 2 ^ m → N * N < 2 ^ 31 →
          relNumDiffEl a b N
              = (((List.range (N * N)).filter
                  (fun i => decide (|toFloat (rd a i - rd b i)| > toDouble 1e-6))).length : ℚ)
                / (N : ℚ) ^ 2
            ∧ relNumDiffEl a b N ≤ 1) := by
  refine ⟨relNumDiffEl_eq_iterate a b N, relNumDiffEl_nonneg a b N,
    fun i0 hi hd hs => relNumDiffEl_single a b N i0 hi hd hs, ?_⟩
  intro m hN hint
  have h := relNumDiffEl_pow_two a b N m hN hint
  refine ⟨h, ?_⟩
  rw [h]
  have h1 := numDiff_le a b N
  have h2 : (numDiff a b N : ℚ) ≤ (N : ℚ) ^ 2 := by
    have : ((numDiff a b N : Nat) : ℚ) ≤ ((N * N : Nat) : ℚ) := by exact_mod_cast h1
    calc (numDiff a b N : ℚ) ≤ ((N * N : Nat) : ℚ) := this
      _ = (N : ℚ) ^ 2 := by push_cast; ring
  exact div_le_one_of_le₀ h2 (by positivity)

/-- C6 at `N = 4`, a power of two: `g4` against a copy whose cell 2 holds 126 instead of 127
gives the `double` `1. / (float) 16`, and the result is at most 1. -/
theorem relNumDiffEl_rounded_witness :
    relNumDiffEl g4 (g4.set 2 126) 4 = toDouble (1 / toFloat ((4 * 4 : Nat) : ℚ))
      ∧ relNumDiffEl g4 (g4.set 2 126) 4 ≤ 1 :=
  ⟨(relNumDiffEl_rounded g4 (g4.set 2 126) 4).2.2.1 2 (by decide)
    (by norm_num [rd, g4])
    (by
      intro i _ hne
      rw [rd_set, if_neg (fun h => hne h.1.symm)]),
   ((relNumDiffEl_rounded g4 (g4.set 2 126) 4).2.2.2 2 (by norm_num) (by norm_num)).2⟩

theorem rd_onesGrid (N j : Nat) (hj : j < N * N) : rd (onesGrid N) j = 1 := by
  unfold rd onesGrid
  simp [List.getElem?_replicate, hj]

theorem rd_oneHot (N j : Nat) (hN : 0 < N * N) :
    rd (oneHot N) j = if j = 0 then 1 else 0 := by
  unfold oneHot
  rw [rd_set, rd_zeroGrid]
  have hl : (zeroGrid N).length = N * N := by simp [zeroGrid]
  by_cases h : j = 0
  · subst h
    rw [if_pos ⟨rfl, by rw [hl]; exact hN⟩, if_pos rfl]
  · rw [if_neg (fun hh => h hh.1.symm), if_neg h]

/-- C6 as stated fails on the code. At `N = 3` with every one of the nine cells differing by 1
the nine rounded sums of the `double` `1. / 9` end at `1 + 2 ^ (-52)`: the result is not
`9 / 3^2` and exceeds 1. At `N = 4097` with one cell differing by 1 the conversion
`(float) (4097 * 4097)` gives 16785408, so the result is the `double` `1. / 16785408`, which
is neither `1 / 4097^2` nor the `double` nearest to it. -/
theorem relNumDiffEl_not_exact :
    ((List.range (3 * 3)).filter
        (fun i => decide (|rd (onesGrid 3) i - rd (zeroGrid 3) i| > 1e-6))).length = 9
    ∧ relNumDiffEl (onesGrid 3) (zeroGrid 3) 3 = 4503599627370497 / 4503599627370496
    ∧ relNumDiffEl (onesGrid 3) (zeroGrid 3) 3 ≠ (9 : ℚ) / (3 : ℚ) ^ 2
    ∧ ¬ relNumDiffEl (onesGrid 3) (zeroGrid 3) 3 ≤ 1
    ∧ toFloat ((4097 * 4097 : Nat) : ℚ) = 16785408
    ∧ relNumDiffEl (oneHot 4097) (zeroGrid 4097) 4097
        = 17583600302081 / 295147905179352825856
    ∧ relNumDiffEl (oneHot 4097) (zeroGrid 4097) 4097 ≠ 1 / (4097 : ℚ) ^ 2
    ∧ relNumDiffEl (oneHot 4097) (zeroGrid 4097) 4097 ≠ toDouble (1 / (4097 : ℚ) ^ 2) := by
  have hdiff : ∀ i, i < 3 * 3 → |rd (onesGrid 3) i - rd (zeroGrid 3) i| = 1 := by
    intro i hi
    rw [rd_onesGrid 3 i hi, rd_zeroGrid]
    norm_num
  have hcount : ((List.range (3 * 3)).filter
      (fun i => decide (|rd (onesGrid 3) i - rd (zeroGrid 3) i| > 1e-6))).length = 9 := by
    rw [List.filter_eq_self.mpr, List.length_range]
    intro i hi
    rw [hdiff i (List.mem_range.mp hi)]
    norm_num
  have hf9 : toFloat ((3 * 3 : Nat) : ℚ) = 9 := by
    rw [toFloat, roundNE_of_pos _ _ (by norm_num)]
    exact roundPos_eval 24 _ (-20) 9437184 _ (by norm_num) (by norm_num)
        (by norm_num) (by norm_num) (by norm_num) (by norm_num)
  have hc : toDouble (1 / toFloat ((3 * 3 : Nat) : ℚ))
      = 2001599834386887 / 18014398509481984 := by
    rw [hf9, toDouble, roundNE_of_pos _ _ (by norm_num)]
    exact roundPos_eval 53 _ (-56) 8006399337547548 _ (by norm_num) (by norm_num)
        (by norm_num) (by norm_num) (by norm_num) (by norm_num)
  have s1 : toDouble ((0 : ℚ) + 2001599834386887 / 18014398509481984)
      = 2001599834386887 / 18014398509481984 := by
    rw [toDouble, roundNE_of_pos _ _ (by norm_num)]
    exact roundPos_eval 53 _ (-56) 8006399337547548 _ (by norm_num) (by norm_num)
        (by norm_num) (by norm_num) (by norm_num) (by norm_num)
  have s2 : toDouble ((2001599834386887 / 18014398509481984 : ℚ) + 2001599834386887 / 18014398509481984)
      = 2001599834386887 / 9007199254740992 := by
    rw [toDouble, roundNE_of_pos _ _ (by norm_num)]
    exact roundPos_eval 53 _ (-55) 8006399337547548 _ (by norm_num) (by norm_num)
        (by norm_num) (by norm_num) (by norm_num) (by norm_num)
  have s3 : toDouble ((2001599834386887 / 9007199254740992 : ℚ) + 2001599834386887 / 18014398509481984)
      = 6004799503160661 / 18014398509481984 := by
    rw [toDouble, roundNE_of_pos _ _ (by norm_num)]
    exact roundPos_eval 53 _ (-54) 6004799503160661 _ (by norm_num) (by norm_num)
        (by norm_num) (by norm_num) (by norm_num) (by norm_num)
  have s4 : toDouble ((6004799503160661 / 18014398509481984 : ℚ) + 2001599834386887 / 18014398509481984)
      = 2001599834386887 / 4503599627370496 := by
    rw [toDouble, roundNE_of_pos _ _ (by norm_num)]
    exact roundPos_eval 53 _ (-54) 8006399337547548 _ (by norm_num) (by norm_num)
        (by norm_num) (by norm_num) (by norm_num) (by norm_num)
  have s5 : toDouble ((2001599834386887 / 4503599627370496 : ℚ) + 2001599834386887 / 18014398509481984)
      = 2501999792983609 / 4503599627370496 := by
    rw [toDouble, roundNE_of_pos _ _ (by norm_num)]
    exact roundPos_eval 53 _ (-53) 5003999585967217 _ (by norm_num) (by norm_num)
        (by norm_num) (by norm_num) (by norm_num) (by norm_num)
  have s6 : toDouble ((2501999792983609 / 4503599627370496 : ℚ) + 2001599834386887 / 18014398509481984)
      = 3002399751580331 / 4503599627370496 := by
    rw [toDouble, roundNE_of_pos _ _ (by norm_num)]
    exact roundPos_eval 53 _ (-53) 6004799503160661 _ (by norm_num) (by norm_num)
        (by norm_num) (by norm_num) (by norm_num) (by norm_num)
  have s7 : toDouble ((3002399751580331 / 4503599627370496 : ℚ) + 2001599834386887 / 18014398509481984)
      = 3502799710177053 / 4503599627370496 := by
    rw [toDouble, roundNE_of_pos _ _ (by norm_num)]
    exact roundPos_eval 53 _ (-53) 7005599420354105 _ (by norm_num) (by norm_num)
        (by norm_num) (by norm_num) (by norm_num) (by norm_num)
  have s8 : toDouble ((3502799710177053 / 4503599627370496 : ℚ) + 2001599834386887 / 18014398509481984)
      = 4003199668773775 / 4503599627370496 := by
    rw [toDouble, roundNE_of_pos _ _ (by norm_num)]
    exact roundPos_eval 53 _ (-53) 8006399337547549 _ (by norm_num) (by norm_num)
        (by norm_num) (by norm_num) (by norm_num) (by norm_num)
  have s9 : toDouble ((4003199668773775 / 4503599627370496 : ℚ) + 2001599834386887 / 18014398509481984)
      = 4503599627370497 / 4503599627370496 := by
    rw [toDouble, roundNE_of_pos _ _ (by norm_num)]
    exact roundPos_eval 53 _ (-52) 4503599627370496 _ (by norm_num) (by norm_num)
        (by norm_num) (by norm_num) (by norm_num) (by norm_num)
  have h0 : (fun r : ℚ => toDouble (r + 2001599834386887 / 18014398509481984))^[0] 0 = 0 :=
    rfl
  have h1 : (fun r : ℚ => toDouble (r + 2001599834386887 / 18014398509481984))^[0+1] 0
      = 2001599834386887 / 18014398509481984 := by
    rw [Function.iterate_succ_apply', h0]
    exact s1
  have h2 : (fun r : ℚ => toDouble (r + 2001599834386887 / 18014398509481984))^[1+1] 0
      = 2001599834386887 / 9007199254740992 := by
    rw [Function.iterate_succ_apply', h1]
    exact s2
  have h3 : (fun r : ℚ => toDouble (r + 2001599834386887 / 18014398509481984))^[2+1] 0
      = 6004799503160661 / 18014398509481984 := by
    rw [Function.iterate_succ_apply', h2]
    exact s3
  have h4 : (fun r : ℚ => toDouble (r + 2001599834386887 / 18014398509481984))^[3+1] 0
      = 2001599834386887 / 4503599627370496 := by
    rw [Function.iterate_succ_apply', h3]
    exact s4
  have h5 : (fun r : ℚ => toDouble (r + 2001599834386887 / 18014398509481984))^[4+1] 0
      = 2501999792983609 / 4503599627370496 := by
    rw [Function.iterate_succ_apply', h4]
    exact s5
  have h6 : (fun r : ℚ => toDouble (r + 2001599834386887 / 18014398509481984))^[5+1] 0
      = 3002399751580331 / 4503599627370496 := by
    rw [Function.iterate_succ_apply', h5]
    exact s6
  have h7 : (fun r : ℚ => toDouble (r + 2001599834386887 / 18014398509481984))^[6+1] 0
      = 3502799710177053 / 4503599627370496 := by
    rw [Function.iterate_succ_apply', h6]
    exact s7
  have h8 : (fun r : ℚ => toDouble (r + 2001599834386887 / 18014398509481984))^[7+1] 0
      = 4003199668773775 / 4503599627370496 := by
    rw [Function.iterate_succ_apply', h7]
    exact s8
  have h9 : (fun r : ℚ => toDouble (r + 2001599834386887 / 18014398509481984))^[8+1] 0
      = 4503599627370497 / 4503599627370496 := by
    rw [Function.iterate_succ_apply', h8]
    exact s9
  have hval : relNumDiffEl (onesGrid 3) (zeroGrid 3) 3
      = 4503599627370497 / 4503599627370496 := by
    rw [relNumDiffEl_eq_iterate, numDiff_all _ _ 3 hdiff, hc]
    exact h9
  have hf : toFloat ((4097 * 4097 : Nat) : ℚ) = 16785408 := by
    rw [toFloat, roundNE_of_pos _ _ (by norm_num)]
    exact roundPos_eval 24 _ (1) 8392704 _ (by norm_num) (by norm_num)
        (by norm_num) (by norm_num) (by norm_num) (by norm_num)
  have hone : relNumDiffEl (oneHot 4097) (zeroGrid 4097) 4097
      = 17583600302081 / 295147905179352825856 := by
    rw [relNumDiffEl_single (oneHot 4097) (zeroGrid 4097) 4097 0 (by norm_num)
      (by rw [rd_oneHot 4097 0 (by norm_num), rd_zeroGrid]; norm_num)
      (by
        intro i _ hne
        rw [rd_oneHot 4097 i (by norm_num), rd_zeroGrid, if_neg hne]),
      hf, toDouble, roundNE_of_pos _ _ (by norm_num)]
    exact roundPos_eval 53 _ (-77) 9002803354665471 _ (by norm_num) (by norm_num)
        (by norm_num) (by norm_num) (by norm_num) (by norm_num)
  have hnear : toDouble (1 / (4097 : ℚ) ^ 2) = 281337588072453 / 4722366482869645213696 := by
    rw [toDouble, roundNE_of_pos _ _ (by norm_num)]
    exact roundPos_eval 53 _ (-77) 9002802818318495 _ (by norm_num) (by norm_num)
        (by norm_num) (by norm_num) (by norm_num) (by norm_num)
  refine ⟨hcount, hval, ?_, ?_, hf, hone, ?_, ?_⟩
  · rw [hval]; norm_num
  · rw [hval]; norm_num
  · rw [hone]; norm_num
  · rw [hone, hnear]; norm_num

/-! ## C9: the input initialisation -/

theorem foldl_triple {α : Type} (F : α → Grid → Grid) (l : List α) (a b r : Grid) :
    l.foldl (fun (s : Grid × Grid × Grid) i => (F i s.1, F i s.2.1, F i s.2.2)) (a, b, r)
      = (l.foldl (fun g i => F i g) a, l.foldl (fun g i => F i g) b,
          l.foldl (fun g i => F i g) r) := by
  induction l generalizing a b r with
  | nil => rfl
  | cons x t ih => simp only [List.foldl_cons, ih]

theorem set_input_data_eq_seed (a b r : Grid) (N : Nat) (bs : Bool) :
    set_input_data (a, b, r) N bs = (seed a N bs, seed b N bs, seed r N bs) := by
  have e1 : (fun (s : Grid × Grid × Grid) (i : Nat) =>
      let a := s.1.set i 0
      let b := s.2.1.set i 0
      let r := s.2.2.set i 0
      if (i : ℚ) ≥ 0.25 * (N : ℚ) ∧ (i : ℚ) ≤ 0.75 * (N : ℚ) then
        (a.set i 127, b.set i 127, r.set i 127)
      else (a, b, r))
      = (fun (s : Grid × Grid × Grid) (i : Nat) =>
        ((fun i (o : Grid) => if True then o.set i (if band N i then 127 else 0) else o) i s.1,
         (fun i (o : Grid) => if True then o.set i (if band N i then 127 else 0) else o) i s.2.1,
         (fun i (o : Grid) => if True then o.set i (if band N i then 127 else 0) else o) i
           s.2.2)) := by
    funext s i
    by_cases h : band N i
    · have h2 := h
      unfold band at h2
      simp only [h, h2, and_self, if_true, List.set_set]
    · have h2 := h
      unfold band at h2
      simp only [h, h2, if_false, if_true]
  have e2 : (fun (s : Grid × Grid × Grid) (i : Nat) =>
      if (i : ℚ) ≥ 0.25 * (N : ℚ) ∧ (i : ℚ) ≤ 0.75 * (N : ℚ) then
        (s.1.set (N * N - i) 127, s.2.1.set (N * N - i) 127, s.2.2.set (N * N - i) 127)
      else s)
      = (fun (s : Grid × Grid × Grid) (i : Nat) =>
        ((fun i (o : Grid) => if band N i then o.set (N * N - i) 127 else o) i s.1,
         (fun i (o : Grid) => if band N i then o.set (N * N - i) 127 else o) i s.2.1,
         (fun i (o : Grid) => if band N i then o.set (N * N - i) 127 else o) i s.2.2)) := by
    funext s i
    by_cases h : band N i
    · have h2 := h
      unfold band at h2
      simp only [h, h2, and_self, if_true]
    · have h2 := h
      unfold band at h2
      simp only [h, h2, if_false]
  unfold set_input_data seed seed1
  cases bs
  · rw [e1]
    exact foldl_triple
      (fun i (o : Grid) => if True then o.set i (if band N i then 127 else 0) else o) _ a b r
  · rw [e1, e2]
    have k1 := foldl_triple
      (fun i (o : Grid) => if True then o.set i (if band N i then 127 else 0) else o)
      (List.range (N * N)) a b r
    exact (congrArg (fun z => List.foldl (fun (s : Grid × Grid × Grid) (i : Nat) =>
        ((fun i (o : Grid) => if band N i then o.set (N * N - i) 127 else o) i s.1,
         (fun i (o : Grid) => if band N i then o.set (N * N - i) 127 else o) i s.2.1,
         (fun i (o : Grid) => if band N i then o.set (N * N - i) 127 else o) i s.2.2))
        z (List.range (N * N))) k1).trans
      (foldl_triple (fun i (o : Grid) => if band N i then o.set (N * N - i) 127 else o) _ _ _ _)

theorem band_iff (N i : Nat) : band N i ↔ N ≤ 4 * i ∧ 4 * i ≤ 3 * N := by
  unfold band
  constructor
  · rintro ⟨h1, h2⟩
    have h3 : (N : ℚ) ≤ 4 * (i : ℚ) := by norm_num at h1; linarith
    have h4 : 4 * (i : ℚ) ≤ 3 * (N : ℚ) := by norm_num at h2; linarith
    exact ⟨by exact_mod_cast h3, by exact_mod_cast h4⟩
  · rintro ⟨h1, h2⟩
    have h3 : (N : ℚ) ≤ 4 * (i : ℚ) := by exact_mod_cast h1
    have h4 : 4 * (i : ℚ) ≤ 3 * (N : ℚ) := by exact_mod_cast h2
    constructor
    · show 0.25 * (N : ℚ) ≤ (i : ℚ)
      norm_num
      linarith
    · norm_num
      linarith

theorem length_alloc (fill : Nat → ℚ) (n : Nat) : (alloc fill n).length = n := by
  simp [alloc]

theorem length_seed1 (g : Grid) (N : Nat) : (seed1 g N).length = g.length :=
  length_foldl_write (fun _ => True) (fun i => i) (fun i => if band N i then 127 else 0) _ g

theorem rd_seed1 (g : Grid) (N : Nat) (hg : g.length = N * N) (j : Nat) (hj : j < N * N) :
    rd (seed1 g N) j = if band N j then 127 else 0 := by
  unfold seed1
  rw [rd_foldl_write (fun _ => True) (fun i => i) (fun i => if band N i then 127 else 0)]
  rw [if_pos ⟨by omega, j, List.mem_range.mpr hj, trivial, rfl⟩]

theorem length_seed (g : Grid) (N : Nat) (bs : Bool) : (seed g N bs).length = g.length := by
  unfold seed
  cases bs
  · exact length_seed1 g N
  · show ((List.range (N * N)).foldl
      (fun o i => if band N i then o.set (N * N - i) 127 else o) (seed1 g N)).length = _
    rw [length_foldl_write (band N) (fun i => N * N - i) (fun _ => 127), length_seed1]

theorem rd_seed (g : Grid) (N : Nat) (bs : Bool) (hg : g.length = N * N) (j : Nat)
    (hj : j < N * N) :
    rd (seed g N bs) j
      = if bs = true ∧ ∃ i, i < N * N ∧ band N i ∧ N * N - i = j then 127
        else if band N j then 127 else 0 := by
  unfold seed
  cases bs
  · simp only [Bool.false_eq_true, false_and, if_false]
    exact rd_seed1 g N hg j hj
  · simp only [if_true, true_and]
    rw [rd_foldl_write (band N) (fun i => N * N - i) (fun _ => 127), rd_seed1 g N hg j hj,
      length_seed1]
    congr 1
    apply propext
    constructor
    · rintro ⟨_, i, hi, hb, he⟩
      exact ⟨i, List.mem_range.mp hi, hb, he⟩
    · rintro ⟨i, hi, hb, he⟩
      exact ⟨by omega, i, List.mem_range.mpr hi, hb, he⟩

/-- The top band lies in the first row: the seeding test holds at cell `(x, y)` exactly when
`y = 0` and it holds for the column `x`. -/
theorem band_cell (N x y : Nat) (hx : x < N) : band N (x + y * N) ↔ y = 0 ∧ band N x := by
  rw [band_iff, band_iff]
  rcases Nat.eq_zero_or_pos y with h | h
  · subst h
    simp
  · have h1 : 1 * N ≤ y * N := Nat.mul_le_mul_right N h
    generalize y * N = w at h1
    omega

/-- The bottom band lies in the last row, in the columns of the top band. -/
theorem bottom_cell (N x y : Nat) (hx : x < N) (hy : y < N) :
    (∃ i, i < N * N ∧ band N i ∧ N * N - i = x + y * N) ↔ y = N - 1 ∧ band N x := by
  have hNN : (N - 1) * N + N = N * N := by
    have : N - 1 + 1 = N := by omega
    calc (N - 1) * N + N = (N - 1 + 1) * N := by ring
      _ = N * N := by rw [this]
  constructor
  · rintro ⟨i, hi, hb, he⟩
    rw [band_iff] at hb
    rw [band_iff]
    rcases Nat.lt_or_ge y (N - 1) with h | h
    · exfalso
      have h1 : (y + 1) * N ≤ (N - 1) * N := Nat.mul_le_mul_right N h
      have h2 : (y + 1) * N = y * N + N := by ring
      generalize (y + 1) * N = u at h1 h2
      generalize (N - 1) * N = m at hNN h1
      generalize y * N = w at he h2
      generalize N * N = q at hNN he hi
      omega
    · have h3 : y = N - 1 := by omega
      subst h3
      generalize (N - 1) * N = m at hNN he
      generalize N * N = q at hNN he hi
      omega
  · rintro ⟨h3, hb⟩
    subst h3
    rw [band_iff] at hb
    refine ⟨N - x, ?_, ?_, ?_⟩
    · generalize (N - 1) * N = m at hNN
      generalize N * N = q at hNN
      omega
    · rw [band_iff]
      omega
    · generalize (N - 1) * N = m at hNN
      generalize N * N = q at hNN
      omega

theorem cell_lt (N x y : Nat) (hx : x < N) (hy : y < N) : x + y * N < N * N := by
  have h1 : (y + 1) * N ≤ N * N := Nat.mul_le_mul_right N hy
  have h2 : (y + 1) * N = y * N + N := by ring
  omega

theorem rd_seed_cell (f : Nat → ℚ) (N : Nat) (bs : Bool) (x y : Nat) (hx : x < N)
    (hy : y < N) :
    rd (seed (alloc f (N * N)) N bs) (x + y * N)
      = if (0.25 * (N : ℚ) ≤ (x : ℚ) ∧ (x : ℚ) ≤ 0.75 * (N : ℚ))
            ∧ (y = 0 ∨ (bs = true ∧ y = N - 1)) then 127 else 0 := by
  rw [rd_seed _ N bs (length_alloc f _) _ (cell_lt N x y hx hy)]
  have e : (0.25 * (N : ℚ) ≤ (x : ℚ) ∧ (x : ℚ) ≤ 0.75 * (N : ℚ)) ↔ band N x := Iff.rfl
  simp only [e, bottom_cell N x y hx hy, band_cell N x y hx]
  by_cases hb : band N x <;> by_cases h0 : y = 0 <;> by_cases h1 : y = N - 1 <;>
    cases bs <;> simp [hb, h0, h1]

theorem band_rows (N i : Nat) (hi : i < N * N) (hb : band N i) :
    i / N = 0 ∧ N * N - i < N * N ∧ (N * N - i) / N = N - 1 := by
  rw [band_iff] at hb
  have hpos : 0 < N := by
    rcases Nat.eq_zero_or_pos N with h | h
    · subst h
      simp at hi
    · exact h
  have hNN : (N - 1) * N + N = N * N := by
    have : N - 1 + 1 = N := by omega
    calc (N - 1) * N + N = (N - 1 + 1) * N := by ring
      _ = N * N := by rw [this]
  refine ⟨Nat.div_eq_of_lt (by omega), by omega, ?_⟩
  have e : N * N - i = (N - i) + (N - 1) * N := by
    generalize (N - 1) * N = m at hNN
    generalize N * N = q at hNN hi
    omega
  rw [e, Nat.add_mul_div_right _ _ hpos, Nat.div_eq_of_lt (by omega), Nat.zero_add]

/-- C9: after the input initialisation of `main`, in each of the three host grids the cell
`(x, y)` holds 127 exactly when `0.25 * N <= x <= 0.75 * N` and either `y = 0`, or the
bottom-source flag is set and `y = N - 1`; every other cell holds 0. The indices `i` of the
seeded band lie in the first row, and every index `N * N - i` of the second loop is inside the
grid and in the last row. -/
theorem set_input_data_spec (fa fb fr : Nat → ℚ) (N : Nat) (bs : Bool) (x y : Nat)
    (hx : x < N) (hy : y < N) :
    (rd (set_input_data (alloc fa (N * N), alloc fb (N * N), alloc fr (N * N)) N bs).1
        (x + y * N)
      = if (0.25 * (N : ℚ) ≤ (x : ℚ) ∧ (x : ℚ) ≤ 0.75 * (N : ℚ))
            ∧ (y = 0 ∨ (bs = true ∧ y = N - 1)) then 127 else 0)
    ∧ (rd (set_input_data (alloc fa (N * N), alloc fb (N * N), alloc fr (N * N)) N bs).2.1
        (x + y * N)
      = if (0.25 * (N : ℚ) ≤ (x : ℚ) ∧ (x : ℚ) ≤ 0.75 * (N : ℚ))
            ∧ (y = 0 ∨ (bs = true ∧ y = N - 1)) then 127 else 0)
    ∧ (rd (set_input_data (alloc fa (N * N), alloc fb (N * N), alloc fr (N * N)) N bs).2.2
        (x + y * N)
      = if (0.25 * (N : ℚ) ≤ (x : ℚ) ∧ (x : ℚ) ≤ 0.75 * (N : ℚ))
            ∧ (y = 0 ∨ (bs = true ∧ y = N - 1)) then 127 else 0)
    ∧ ∀ i : Nat, i < N * N → ((i : ℚ) ≥ 0.25 * (N : ℚ) ∧ (i : ℚ) ≤ 0.75 * (N : ℚ)) →
        i / N = 0 ∧ N * N - i < N * N ∧ (N * N - i) / N = N - 1 := by
  rw [set_input_data_eq_seed]
  exact ⟨rd_seed_cell fa N bs x y hx hy, rd_seed_cell fb N bs x y hx hy,
    rd_seed_cell fr N bs x y hx hy, fun i hi hb => band_rows N i hi hb⟩

/-- C9 at `N = 4` with the bottom source, whatever the fresh storage held: the cell `(2, 3)`
of the last row holds 127 in `gridA_h`. -/
theorem set_input_data_spec_witness :
    rd (set_input_data (alloc (fun _ => 5) (4 * 4), alloc (fun _ => 6) (4 * 4),
      alloc (fun _ => 7) (4 * 4)) 4 true).1 (2 + 3 * 4) = 127 :=
  (set_input_data_spec (fun _ => 5) (fun _ => 6) (fun _ => 7) 4 true 2 3
    (by decide) (by decide)).1.trans (by norm_num)

/-! ## C5: the clamping invariant -/

theorem inRange_of_rd (g : Grid) (h : ∀ j, j < g.length → 0 ≤ rd g j ∧ rd g j ≤ 127) :
    InRange g := by
  intro v hv
  obtain ⟨j, hj, rfl⟩ := List.mem_iff_getElem.mp hv
  have := h j hj
  simpa [rd, List.getElem?_eq_getElem hj] using this

theorem inRange_stencil_cpu (inp out : Grid) (N : Nat) (h : InRange out) :
    InRange (stencil_cpu inp out N) := by
  apply inRange_of_rd
  intro j hj
  rw [length_stencil_cpu] at hj
  rw [rd_stencil_cpu]
  split
  · exact stencil_cell_range inp N j
  · exact h _ (rd_mem out j hj)

theorem inRange_cpu_loop (N T : Nat) :
    ∀ A B : Grid, InRange A → InRange B →
      InRange (cpu_loop T (A, B) N).1 ∧ InRange (cpu_loop T (A, B) N).2 := by
  induction T with
  | zero => intro A B hA hB; exact ⟨hA, hB⟩
  | succ T ih =>
    intro A B hA hB
    show InRange (cpu_loop T (stencil_cpu A B N, A) N).1
      ∧ InRange (cpu_loop T (stencil_cpu A B N, A) N).2
    exact ih _ _ (inRange_stencil_cpu A B N hB) hA

theorem inRange_seed (f : Nat → ℚ) (N : Nat) (bs : Bool) :
    InRange (seed (alloc f (N * N)) N bs) := by
  apply inRange_of_rd
  intro j hj
  rw [length_seed, length_alloc] at hj
  rw [rd_seed _ N bs (length_alloc f _) j hj]
  split
  · norm_num
  · split <;> norm_num

/-- C5: when every cell of the source and of the destination lies in the range from 0 to 127,
every cell of the destination lies in that range after a pass of `stencil_cpu`, and every cell
of both buffers does after any number of steps of the reference loop; the initial grids of
`main` are such grids, with or without the bottom source. -/
theorem clamping_invariant (N T : Nat) (A B : Grid) (hA : InRange A) (hB : InRange B) :
    (∀ v ∈ stencil_cpu A B N, 0 ≤ v ∧ v ≤ 127)
    ∧ (∀ v ∈ (cpu_loop T (A, B) N).1, 0 ≤ v ∧ v ≤ 127)
    ∧ (∀ v ∈ (cpu_loop T (A, B) N).2, 0 ≤ v ∧ v ≤ 127)
    ∧ ∀ (fa fb fr : Nat → ℚ) (bs : Bool),
        InRange (set_input_data (alloc fa (N * N), alloc fb (N * N), alloc fr (N * N)) N bs).1
        ∧ InRange
          (set_input_data (alloc fa (N * N), alloc fb (N * N), alloc fr (N * N)) N bs).2.1
        ∧ InRange
          (set_input_data (alloc fa (N * N), alloc fb (N * N), alloc fr (N * N)) N bs).2.2 := by
  refine ⟨inRange_stencil_cpu A B N hB, (inRange_cpu_loop N T A B hA hB).1,
    (inRange_cpu_loop N T A B hA hB).2, ?_⟩
  intro fa fb fr bs
  rw [set_input_data_eq_seed]
  exact ⟨inRange_seed fa N bs, inRange_seed fb N bs, inRange_seed fr N bs⟩

theorem inRange_g4 : InRange g4 := by
  intro v hv
  simp only [g4, List.mem_cons, List.mem_singleton] at hv
  rcases hv with h | h | h | h | h | h | h | h | h | h | h | h | h | h | h | h | h <;>
    first
      | (subst h; norm_num)
      | (exact absurd h (List.not_mem_nil _))

/-- C5 at `N = 4`, five steps from `g4` in both buffers: every cell of the current buffer lies
in the range. -/
theorem clamping_invariant_witness :
    InRange g4 ∧ ∀ v ∈ (cpu_loop 5 (g4, g4) 4).1, 0 ≤ v ∧ v ≤ 127 :=
  ⟨inRange_g4, (clamping_invariant 4 5 g4 g4 inRange_g4 inRange_g4).2.1⟩

/-! ## C8: rejection of a grid side that is not a multiple of the tile size -/

theorem cuda_setup_spec (rt : Runtime) (s : State) :
    ((cuda_setup rt s).1 = none ∨ (cuda_setup rt s).1 = some EXIT_FAILURE
      ∨ (cuda_setup rt s).1 = some EXIT_CUDA)
    ∧ (cuda_setup rt s).2.dev.launches = s.dev.launches
    ∧ (cuda_setup rt s).2.file = s.file
    ∧ (cuda_setup rt s).2.gridA_h = s.gridA_h
    ∧ (cuda_setup rt s).2.gridB_h = s.gridB_h := by
  generalize hr : cuda_setup rt s = r
  unfold cuda_setup at hr
  by_cases h0 : rt.cuInit = false
  · rw [if_pos h0] at hr
    subst hr
    exact ⟨Or.inr (Or.inr rfl), rfl, rfl, rfl, rfl⟩
  rw [if_neg h0] at hr
  by_cases h1 : rt.cuDeviceGet = false
  · rw [if_pos h1] at hr
    subst hr
    exact ⟨Or.inr (Or.inr rfl), rfl, rfl, rfl, rfl⟩
  rw [if_neg h1] at hr
  by_cases h2 : rt.cuDeviceComputeCapability = false
  · rw [if_pos h2] at hr
    subst hr
    exact ⟨Or.inr (Or.inr rfl), rfl, rfl, rfl, rfl⟩
  rw [if_neg h2] at hr
  by_cases h3 : rt.cuCtxCreate = false
  · rw [if_pos h3] at hr
    subst hr
    exact ⟨Or.inr (Or.inl rfl), rfl, rfl, rfl, rfl⟩
  rw [if_neg h3] at hr
  by_cases h4 : rt.cuModuleLoad = false
  · rw [if_pos h4] at hr
    subst hr
    exact ⟨Or.inr (Or.inl rfl), rfl, rfl, rfl, rfl⟩
  rw [if_neg h4] at hr
  by_cases h5 : rt.cuModuleGetFunction = false
  · rw [if_pos h5] at hr
    subst hr
    exact ⟨Or.inr (Or.inl rfl), rfl, rfl, rfl, rfl⟩
  rw [if_neg h5] at hr
  by_cases h6 : rt.cuMemAllocA = false
  · rw [if_pos h6] at hr
    subst hr
    exact ⟨Or.inr (Or.inr rfl), rfl, rfl, rfl, rfl⟩
  rw [if_neg h6] at hr
  by_cases h7 : rt.cuMemAllocB = false
  · rw [if_pos h7] at hr
    subst hr
    exact ⟨Or.inr (Or.inr rfl), rfl, rfl, rfl, rfl⟩
  rw [if_neg h7] at hr
  by_cases h8 : rt.cuMemcpyHtoDA = false
  · rw [if_pos h8] at hr
    subst hr
    exact ⟨Or.inr (Or.inr rfl), rfl, rfl, rfl, rfl⟩
  rw [if_neg h8] at hr
  by_cases h9 : rt.cuMemcpyHtoDB = false
  · rw [if_pos h9] at hr
    subst hr
    exact ⟨Or.inr (Or.inr rfl), rfl, rfl, rfl, rfl⟩
  rw [if_neg h9] at hr
  subst hr
  exact ⟨Or.inl rfl, rfl, rfl, rfl, rfl⟩

theorem cuda_setup_ok (rt : Runtime) (T : Nat) (s : State) (hok : rt.ok T) :
    cuda_setup rt s
      = (none, { s with dev := { s.dev with gridA_d := s.gridA_h, gridB_d := s.gridB_h } }) := by
  obtain ⟨-, h0, h1, h2, h3, h4, h5, h6, h7, h8, h9, -⟩ := hok
  unfold cuda_setup
  rw [if_neg (by rw [h0]; decide), if_neg (by rw [h1]; decide), if_neg (by rw [h2]; decide),
    if_neg (by rw [h3]; decide), if_neg (by rw [h4]; decide), if_neg (by rw [h5]; decide),
    if_neg (by rw [h6]; decide), if_neg (by rw [h7]; decide), if_neg (by rw [h8]; decide)]
  simp only []
  rw [if_neg (by rw [h9]; decide)]

theorem verify_cpu_dev (a : Args) (s : State) :
    (verify_cpu a s).dev = s.dev ∧ (verify_cpu a s).file = s.file := by
  unfold verify_cpu
  by_cases h : a.checkResult = true
  · rw [if_pos h]
    exact ⟨rfl, rfl⟩
  · rw [if_neg h]
    exact ⟨rfl, rfl⟩

/-- C8: in every run without `-h`/`--help` whose grid side is not a multiple of `TILESIZE`,
`main` ends with a failure status (`EXIT_FAILURE`, or the `exit(-1)` of a failed driver call,
never `EXIT_SUCCESS`), no kernel launch has been issued and no file is written; when no
earlier call fails the status is the `EXIT_FAILURE` of the `N % TILESIZE` check. -/
theorem main_rejects (rt : Runtime) (a : Args) (hh : a.help = false)
    (hN : a.N % TILESIZE ≠ 0) :
    ((main rt a).1 = EXIT_FAILURE ∨ (main rt a).1 = EXIT_CUDA)
    ∧ (main rt a).1 ≠ EXIT_SUCCESS
    ∧ (main rt a).2.dev.launches = 0
    ∧ (main rt a).2.file = none
    ∧ (rt.ok a.T → (main rt a).1 = EXIT_FAILURE) := by
  have key : ((main rt a).1 = EXIT_FAILURE ∨ (main rt a).1 = EXIT_CUDA)
      ∧ (main rt a).2.dev.launches = 0 ∧ (main rt a).2.file = none
      ∧ (rt.ok a.T → (main rt a).1 = EXIT_FAILURE) := by
    generalize hr : main rt a = r
    unfold main at hr
    rw [if_neg (by rw [hh]; decide)] at hr
    by_cases h1 : rt.hostAlloc = false
    · rw [if_pos h1] at hr
      subst hr
      exact ⟨Or.inl rfl, rfl, rfl, fun _ => rfl⟩
    · rw [if_neg h1] at hr
      have hs := cuda_setup_spec rt (host_init rt a)
      have hk := cuda_setup_ok rt a.T (host_init rt a)
      rcases hc : cuda_setup rt (host_init rt a) with ⟨e, s⟩
      rw [hc] at hs hr hk
      obtain ⟨he, hl, hf, -, -⟩ := hs
      cases e with
      | some e =>
        simp only at he hl hf hr
        subst hr
        refine ⟨?_, hl, hf, ?_⟩
        · rcases he with he | he | he
          · exact absurd he (by simp)
          · exact Or.inl (Option.some.inj he)
          · exact Or.inr (Option.some.inj he)
        · intro hok
          have := hk hok
          simp at this
      | none =>
        simp only [hN, ne_eq, not_false_eq_true, if_true] at hl hf hr
        subst hr
        exact ⟨Or.inl rfl, by rw [(verify_cpu_dev a s).1]; exact hl,
          by rw [(verify_cpu_dev a s).2]; exact hf, fun _ => rfl⟩
  refine ⟨key.1, ?_, key.2.1, key.2.2.1, key.2.2.2⟩
  rcases key.1 with h | h <;> rw [h] <;> decide

/-- C8 at `N = 1000` with `-check` and ten steps, every driver call
succeeding: the status is `EXIT_FAILURE` and no kernel was launched. -/
theorem main_rejects_witness :
    (main (okRuntime 0) args1000).1 = EXIT_FAILURE
      ∧ (main (okRuntime 0) args1000).2.dev.launches = 0 :=
  ⟨(main_rejects (okRuntime 0) args1000 rfl (by decide)).2.2.2.2
      (by simp [Runtime.ok, okRuntime]),
   (main_rejects (okRuntime 0) args1000 rfl (by decide)).2.2.1⟩

/-! ## C3: the device path against the reference path -/

theorem cuLaunchKernel_eq (blocks threads : Nat) (A B : Grid) (N : Nat) :
    cuLaunchKernel blocks threads A B N
      = (List.product (List.range blocks) (List.product (List.range blocks)
          (List.product (List.range threads) (List.range threads)))).foldl
        (fun o t =>
          if (t.2.1 * threads + t.2.2.2 > 0 ∧ t.1 * threads + t.2.2.1 > 0
              ∧ t.2.1 * threads + t.2.2.2 < N - 1 ∧ t.1 * threads + t.2.2.1 < N - 1) then
            o.set (t.2.1 * threads + t.2.2.2 + (t.1 * threads + t.2.2.1) * N)
              (stencil_cell A N (t.2.1 * threads + t.2.2.2 + (t.1 * threads + t.2.2.1) * N))
          else o) B := rfl

/-- When the tiles cover the grid exactly, the threads of a launch with an interior cell are
the interior cells of the grid. -/
theorem thread_cover (blocks threads N j : Nat) (hN : N = blocks * threads) :
    (∃ t ∈ List.product (List.range blocks) (List.product (List.range blocks)
          (List.product (List.range threads) (List.range threads))),
        (t.2.1 * threads + t.2.2.2 > 0 ∧ t.1 * threads + t.2.2.1 > 0
          ∧ t.2.1 * threads + t.2.2.2 < N - 1 ∧ t.1 * threads + t.2.2.1 < N - 1)
        ∧ t.2.1 * threads + t.2.2.2 + (t.1 * threads + t.2.2.1) * N = j)
      ↔ j < N * N ∧ interior N j := by
  constructor
  · rintro ⟨⟨byy, bx, ty, tx⟩, _, ⟨h1, h2, h3, h4⟩, rfl⟩
    have hi := (interior_of_coords N _ _ h1 h3 h2 h4).1
    exact ⟨interior_lt N _ hi, hi⟩
  · rintro ⟨_, h1, h2, h3, h4⟩
    have hNpos : 0 < N := by omega
    have htpos : 0 < threads := by
      rcases Nat.eq_zero_or_pos threads with h | h
      · rw [h, Nat.mul_zero] at hN
        omega
      · exact h
    have hxN : j % N < threads * blocks := by rw [Nat.mul_comm, ← hN]; omega
    have hyN : j / N < threads * blocks := by rw [Nat.mul_comm, ← hN]; omega
    have ex : j % N / threads * threads + j % N % threads = j % N := Nat.div_add_mod' _ _
    have ey : j / N / threads * threads + j / N % threads = j / N := Nat.div_add_mod' _ _
    refine ⟨(j / N / threads, j % N / threads, j / N % threads, j % N % threads), ?_, ?_, ?_⟩
    · simp only [List.pair_mem_product, List.mem_range]
      exact ⟨Nat.div_lt_of_lt_mul hyN, Nat.div_lt_of_lt_mul hxN, Nat.mod_lt _ htpos,
        Nat.mod_lt _ htpos⟩
    · show j % N / threads * threads + j % N % threads > 0
        ∧ j / N / threads * threads + j / N % threads > 0
        ∧ j % N / threads * threads + j % N % threads < N - 1
        ∧ j / N / threads * threads + j / N % threads < N - 1
      rw [ex, ey]
      exact ⟨h1, h2, h3, h4⟩
    · show j % N / threads * threads + j % N % threads
        + (j / N / threads * threads + j / N % threads) * N = j
      rw [ex, ey]
      exact Nat.mod_add_div' j N

/-- A completed launch over tiles that cover the grid exactly performs the update of one pass
of `stencil_cpu`. -/
theorem cuLaunchKernel_eq_stencil_cpu (blocks threads N : Nat) (A B : Grid)
    (hN : N = blocks * threads) :
    cuLaunchKernel blocks threads A B N = stencil_cpu A B N := by
  apply grid_ext
  · rw [cuLaunchKernel_eq, length_stencil_cpu]
    exact length_foldl_write
      (fun t : Nat × Nat × Nat × Nat =>
        t.2.1 * threads + t.2.2.2 > 0 ∧ t.1 * threads + t.2.2.1 > 0
          ∧ t.2.1 * threads + t.2.2.2 < N - 1 ∧ t.1 * threads + t.2.2.1 < N - 1)
      (fun t => t.2.1 * threads + t.2.2.2 + (t.1 * threads + t.2.2.1) * N)
      (stencil_cell A N) _ B
  · intro j _
    rw [rd_stencil_cpu, cuLaunchKernel_eq]
    rw [rd_foldl_write
      (fun t : Nat × Nat × Nat × Nat =>
        t.2.1 * threads + t.2.2.2 > 0 ∧ t.1 * threads + t.2.2.1 > 0
          ∧ t.2.1 * threads + t.2.2.2 < N - 1 ∧ t.1 * threads + t.2.2.1 < N - 1)
      (fun t => t.2.1 * threads + t.2.2.2 + (t.1 * threads + t.2.2.1) * N)
      (stencil_cell A N)]
    simp only [thread_cover blocks threads N j hN]

theorem kernel_loop_ok (rt : Runtime) (blocks threads N : Nat) (hN : N = blocks * threads)
    (n : Nat) :
    ∀ (i : Nat) (d : Device),
      (∀ k, i ≤ k → k < i + n → rt.cuLaunch k = true ∧ rt.cuCtxSynchronize k = true) →
      kernel_loop rt blocks threads N n i d
        = (none, { gridA_d := (cpu_loop n (d.gridA_d, d.gridB_d) N).1,
                   gridB_d := (cpu_loop n (d.gridA_d, d.gridB_d) N).2,
                   launches := d.launches + n }) := by
  induction n with
  | zero => intro i d _; rfl
  | succ n ih =>
    intro i d h
    have h0 := h i (Nat.le_refl i) (by omega)
    unfold kernel_loop
    rw [if_neg (by rw [h0.1]; decide), if_neg (by rw [h0.2]; decide)]
    rw [ih (i + 1) _ (fun k hk1 hk2 => h k (by omega) (by omega)),
      cuLaunchKernel_eq_stencil_cpu blocks threads N _ _ hN]
    show _ = (none, { gridA_d := (cpu_loop n (stencil_cpu d.gridA_d d.gridB_d N, d.gridA_d) N).1,
                      gridB_d := (cpu_loop n (stencil_cpu d.gridA_d d.gridB_d N, d.gridA_d) N).2,
                      launches := d.launches + (n + 1) })
    have e : d.launches + 1 + n = d.launches + (n + 1) := by omega
    simp only [e]

theorem relNumDiffEl_self (g : Grid) (N : Nat) : relNumDiffEl g g N = 0 := by
  rw [relNumDiffEl_eq_iterate, numDiff_self]
  rfl

theorem finish_ok (rt : Runtime) (T : Nat) (a : Args) (s : State) (hok : rt.ok T) :
    (finish rt a s).1 = EXIT_SUCCESS
    ∧ (finish rt a s).2.file = writeGrid s.gridA_h a.N a.fname
    ∧ (finish rt a s).2.gpu_result = s.dev.gridA_d
    ∧ (finish rt a s).2.gridA_h = s.gridA_h
    ∧ (a.checkResult = true →
        (finish rt a s).2.report = some (relNumDiffEl s.gridA_h s.dev.gridA_d a.N * 100)) := by
  obtain ⟨-, -, -, -, -, -, -, -, -, -, -, -, h1, h2, h3, h4⟩ := hok
  generalize hr : finish rt a s = r
  unfold finish at hr
  rw [if_neg (by rw [h1]; decide)] at hr
  simp only [] at hr
  rw [if_neg (by rw [h2]; decide), if_neg (by rw [h3]; decide),
    if_neg (by rw [h4]; decide)] at hr
  by_cases hc : a.checkResult = true <;> by_cases hv : a.verbose = true
  · simp only [hc, hv, if_true] at hr
    subst hr
    exact ⟨rfl, rfl, rfl, rfl, fun _ => rfl⟩
  · simp only [hc, hv, if_true, if_false] at hr
    subst hr
    exact ⟨rfl, rfl, rfl, rfl, fun _ => rfl⟩
  · simp only [hc, hv, if_true, if_false] at hr
    subst hr
    exact ⟨rfl, rfl, rfl, rfl, fun h => absurd h hc⟩
  · simp only [hc, hv, if_false] at hr
    subst hr
    exact ⟨rfl, rfl, rfl, rfl, fun h => absurd h hc⟩

/-- With every call succeeding and a grid side that the tiles cover, `main` reaches its last
section with the device buffers holding what the reference loop computes from the initial
host grids. -/
theorem main_ok (rt : Runtime) (a : Args) (hh : a.help = false) (hN : a.N % TILESIZE = 0)
    (hok : rt.ok a.T) :
    main rt a = finish rt a (computed rt a) := by
  have hdiv : a.N = a.N / TILESIZE * TILESIZE :=
    (Nat.div_mul_cancel (Nat.dvd_of_mod_eq_zero hN)).symm
  have hl : ∀ k, 0 ≤ k → k < 0 + a.T →
      rt.cuLaunch k = true ∧ rt.cuCtxSynchronize k = true :=
    fun k _ hk => hok.2.2.2.2.2.2.2.2.2.2.2.1 k (by omega)
  unfold main computed
  rw [if_neg (by rw [hh]; decide), if_neg (by rw [hok.1]; decide),
    cuda_setup_ok rt a.T _ hok]
  simp only []
  rw [if_neg (by rw [hN]; decide), kernel_loop_ok rt _ _ a.N hdiv a.T 0 _ hl]
  simp only []
  have e : (verify_cpu a { host_init rt a with
      dev := { (host_init rt a).dev with gridA_d := (host_init rt a).gridA_h,
                                          gridB_d := (host_init rt a).gridB_h } }).dev
      = { gridA_d := (host_init rt a).gridA_h, gridB_d := (host_init rt a).gridB_h,
          launches := 0 } := by
    rw [(verify_cpu_dev a _).1]
    rfl
  rw [e]
  simp only [Nat.zero_add]
  congr 1
  unfold verify_cpu
  by_cases hc : a.checkResult = true
  · rw [if_pos hc, if_pos hc]
  · rw [if_neg hc, if_neg hc]

theorem computed_gridA_h (rt : Runtime) (a : Args) :
    (computed rt a).gridA_h = (verify_cpu a (host_init rt a)).gridA_h := rfl

theorem computed_gridA_d (rt : Runtime) (a : Args) :
    (computed rt a).dev.gridA_d
      = (cpu_loop a.T ((host_init rt a).gridA_h, (host_init rt a).gridB_h) a.N).1 := rfl

theorem verify_cpu_gridA_h (a : Args) (s : State) :
    (verify_cpu a s).gridA_h
      = if a.checkResult = true then (cpu_loop a.T (s.gridA_h, s.gridB_h) a.N).1
        else s.gridA_h := by
  unfold verify_cpu
  by_cases hc : a.checkResult = true
  · rw [if_pos hc, if_pos hc]
  · rw [if_neg hc, if_neg hc]

/-- C3: for a grid side that is a multiple of `TILESIZE` and any number of steps, with every
driver call succeeding and a kernel launch performing the per-cell update of the reference
pass, the device loop started from two copies of a grid `g` ends with `gridA_d` equal to the
current buffer of the reference loop started from two copies of `g`, so their `relNumDiffEl`
is 0; and `main`, run with `-check`, ends successfully with `gpu_result` equal to `gridA_h`
and reports the error rate 0. -/
theorem device_path_matches_reference (rt : Runtime) (a : Args) (g : Grid)
    (hN : a.N % TILESIZE = 0) (hok : rt.ok a.T) :
    (kernel_loop rt (a.N / TILESIZE) TILESIZE a.N a.T 0
        { gridA_d := g, gridB_d := g, launches := 0 }).1 = none
    ∧ (kernel_loop rt (a.N / TILESIZE) TILESIZE a.N a.T 0
        { gridA_d := g, gridB_d := g, launches := 0 }).2.gridA_d = (cpu_loop a.T (g, g) a.N).1
    ∧ relNumDiffEl (cpu_loop a.T (g, g) a.N).1
        (kernel_loop rt (a.N / TILESIZE) TILESIZE a.N a.T 0
          { gridA_d := g, gridB_d := g, launches := 0 }).2.gridA_d a.N = 0
    ∧ (a.help = false → a.checkResult = true →
        (main rt a).1 = EXIT_SUCCESS
        ∧ (main rt a).2.gpu_result = (main rt a).2.gridA_h
        ∧ relNumDiffEl (main rt a).2.gridA_h (main rt a).2.gpu_result a.N = 0
        ∧ (main rt a).2.report = some 0) := by
  have hdiv : a.N = a.N / TILESIZE * TILESIZE :=
    (Nat.div_mul_cancel (Nat.dvd_of_mod_eq_zero hN)).symm
  have hl : ∀ k, 0 ≤ k → k < 0 + a.T →
      rt.cuLaunch k = true ∧ rt.cuCtxSynchronize k = true :=
    fun k _ hk => hok.2.2.2.2.2.2.2.2.2.2.2.1 k (by omega)
  rw [kernel_loop_ok rt _ _ a.N hdiv a.T 0 _ hl]
  refine ⟨rfl, rfl, relNumDiffEl_self _ _, ?_⟩
  intro hh hc
  rw [main_ok rt a hh hN hok]
  obtain ⟨f1, -, f3, f4, f5⟩ := finish_ok rt a.T a (computed rt a) hok
  have f5 := f5 hc
  have e1 : (computed rt a).gridA_h
      = (cpu_loop a.T ((host_init rt a).gridA_h, (host_init rt a).gridB_h) a.N).1 := by
    rw [computed_gridA_h, verify_cpu_gridA_h, if_pos hc]
  have e2 : (computed rt a).dev.gridA_d
      = (cpu_loop a.T ((host_init rt a).gridA_h, (host_init rt a).gridB_h) a.N).1 := rfl
  rw [e1, e2, relNumDiffEl_self, zero_mul] at f5
  rw [e1] at f4
  rw [e2] at f3
  refine ⟨f1, ?_, ?_, f5⟩
  · rw [f3, f4]
  · rw [f3, f4]
    exact relNumDiffEl_self _ _

/-- C3 at `N = 32`, one step, with `-check`, every driver call succeeding. -/
theorem device_path_matches_reference_witness :
    (main (okRuntime 0) args32check).1 = EXIT_SUCCESS
      ∧ (main (okRuntime 0) args32check).2.report = some 0 :=
  ⟨((device_path_matches_reference (okRuntime 0) args32check (zeroGrid 32)
      (by decide) (by simp [Runtime.ok, okRuntime])).2.2.2 rfl rfl).1,
   ((device_path_matches_reference (okRuntime 0) args32check (zeroGrid 32)
      (by decide) (by simp [Runtime.ok, okRuntime])).2.2.2 rfl rfl).2.2.2⟩

/-! ## C7: the grid written to the output file -/

theorem flatMap_values_inj (a b : Grid) (N : Nat) (l : List Nat)
    (h : l.flatMap (fun i => [if i % N = 0 then Tok.endl else Tok.space, Tok.num (rd a i)])
      = l.flatMap (fun i => [if i % N = 0 then Tok.endl else Tok.space, Tok.num (rd b i)])) :
    ∀ i ∈ l, rd a i = rd b i := by
  induction l with
  | nil => intro i hi; exact absurd hi (List.not_mem_nil _)
  | cons x t ih =>
    simp only [List.flatMap_cons, List.cons_append, List.nil_append, List.cons.injEq,
      Tok.num.injEq, true_and] at h
    intro i hi
    rcases List.mem_cons.mp hi with rfl | hi
    · exact h.1
    · exact ih h.2 i hi

/-- Two grids whose files agree agree in every cell that is written. -/
theorem writeGrid_inj (a b : Grid) (N : Nat) (fname : String) (hf : fname.isEmpty = false)
    (h : writeGrid a N fname = writeGrid b N fname) (j : Nat) (hj : j < N * N) :
    rd a j = rd b j := by
  unfold writeGrid at h
  rw [if_neg (by rw [hf]; decide), if_neg (by rw [hf]; decide)] at h
  simp only [Option.some.injEq, List.cons.injEq, Tok.num.injEq] at h
  rcases Nat.eq_zero_or_pos j with h0 | h0
  · rw [h0]
    exact h.1
  · exact flatMap_values_inj a b N _ h.2 j (List.mem_range'_1.mpr ⟨h0, by omega⟩)

theorem host_init_grids (rt : Runtime) (a : Args) :
    (host_init rt a).gridA_h = seed (alloc rt.memA (a.N * a.N)) a.N a.bottomSource
    ∧ (host_init rt a).gridB_h = seed (alloc rt.memB (a.N * a.N)) a.N a.bottomSource
    ∧ (host_init rt a).gpu_result = seed (alloc rt.memR (a.N * a.N)) a.N a.bottomSource := by
  simp [host_init, set_input_data_eq_seed]

/-- The initial grid of side 32 without bottom source, from fresh storage holding 0. -/
theorem seed32_cells :
    rd (seed (alloc (fun _ => 0) (32 * 32)) 32 false) 9 = 127
    ∧ rd (seed (alloc (fun _ => 0) (32 * 32)) 32 false) 73 = 0
    ∧ rd (seed (alloc (fun _ => 0) (32 * 32)) 32 false) 40 = 0
    ∧ rd (seed (alloc (fun _ => 0) (32 * 32)) 32 false) 42 = 0
    ∧ rd (seed (alloc (fun _ => 0) (32 * 32)) 32 false) 41 = 0 := by
  have h9 := rd_seed_cell (fun _ => 0) 32 false 9 0 (by decide) (by decide)
  have h73 := rd_seed_cell (fun _ => 0) 32 false 9 2 (by decide) (by decide)
  have h40 := rd_seed_cell (fun _ => 0) 32 false 8 1 (by decide) (by decide)
  have h42 := rd_seed_cell (fun _ => 0) 32 false 10 1 (by decide) (by decide)
  have h41 := rd_seed_cell (fun _ => 0) 32 false 9 1 (by decide) (by decide)
  norm_num at h9 h73 h40 h42 h41
  exact ⟨h9, h73, h40, h42, h41⟩

theorem cpu_loop_one (A B : Grid) (N : Nat) :
    (cpu_loop 1 (A, B) N).1 = stencil_cpu A B N := rfl

theorem stencil_cell_32 (G : Grid) (hl : G.length = 32 * 32) (c9 : rd G 9 = 127)
    (c73 : rd G 73 = 0) (c40 : rd G 40 = 0) (c42 : rd G 42 = 0) (c41 : rd G 41 = 0) :
    rd (stencil_cpu G G 32) (9 + 1 * 32) = 30.48 := by
  rw [rd_stencil_cpu_coords G G 32 9 1 hl (by decide) (by decide) (by decide) (by decide),
    stencil_cell_eq_clamp]
  norm_num [clamp, c9, c73, c40, c42, c41]

/-- C7, the code on the run `-N 32 -T 1 -fname out.txt` (no `-check`), every driver
call succeeding: `main` ends successfully, and the file it writes is the file of the initial
host grid `gridA_h`, whose cell `(9, 1)` is 0, and not the file of `gpu_result`, the grid
after the step, whose cell `(9, 1)` is 30.48. -/
theorem main_writes_host_grid :
    (main (okRuntime 0) args32).1 = EXIT_SUCCESS
    ∧ (main (okRuntime 0) args32).2.file
        = writeGrid (host_init (okRuntime 0) args32).gridA_h 32 "out.txt"
    ∧ rd (host_init (okRuntime 0) args32).gridA_h (9 + 1 * 32) = 0
    ∧ rd (main (okRuntime 0) args32).2.gpu_result (9 + 1 * 32) = 30.48
    ∧ (main (okRuntime 0) args32).2.file
        ≠ writeGrid (main (okRuntime 0) args32).2.gpu_result 32 "out.txt" := by
  have hok : (okRuntime 0).ok args32.T := by simp [Runtime.ok, okRuntime]
  have hm := main_ok (okRuntime 0) args32 rfl (by decide) hok
  obtain ⟨f1, f2, f3, -, -⟩ := finish_ok (okRuntime 0) args32.T args32
    (computed (okRuntime 0) args32) hok
  rw [← hm] at f1 f2 f3
  obtain ⟨gA, gB, -⟩ := host_init_grids (okRuntime 0) args32
  have hA : (host_init (okRuntime 0) args32).gridA_h
      = seed (alloc (fun _ => 0) (32 * 32)) 32 false := gA
  have hB : (host_init (okRuntime 0) args32).gridB_h
      = seed (alloc (fun _ => 0) (32 * 32)) 32 false := gB
  have e1 : (computed (okRuntime 0) args32).gridA_h
      = seed (alloc (fun _ => 0) (32 * 32)) 32 false := by
    rw [computed_gridA_h, verify_cpu_gridA_h, if_neg (by decide), hA]
  have e2 : (computed (okRuntime 0) args32).dev.gridA_d
      = stencil_cpu (seed (alloc (fun _ => 0) (32 * 32)) 32 false)
          (seed (alloc (fun _ => 0) (32 * 32)) 32 false) 32 := by
    have hT : args32.T = 1 := rfl
    have hN : args32.N = 32 := rfl
    rw [computed_gridA_d, hA, hB, hT, hN, cpu_loop_one]
  obtain ⟨c9, c73, c40, c42, c41⟩ := seed32_cells
  have hcell : rd (stencil_cpu (seed (alloc (fun _ => 0) (32 * 32)) 32 false)
      (seed (alloc (fun _ => 0) (32 * 32)) 32 false) 32) (9 + 1 * 32) = 30.48 :=
    stencil_cell_32 _ (by rw [length_seed, length_alloc]) c9 c73 c40 c42 c41
  have hfile : (main (okRuntime 0) args32).2.file
      = writeGrid (seed (alloc (fun _ => 0) (32 * 32)) 32 false) 32 "out.txt" := by
    rw [f2, e1]
    rfl
  have hgpu : (main (okRuntime 0) args32).2.gpu_result
      = stencil_cpu (seed (alloc (fun _ => 0) (32 * 32)) 32 false)
          (seed (alloc (fun _ => 0) (32 * 32)) 32 false) 32 := by
    rw [f3, e2]
  refine ⟨f1, by rw [hfile, hA], by rw [hA]; exact c41, by rw [hgpu]; exact hcell, ?_⟩
  intro h
  rw [hfile, hgpu] at h
  have := writeGrid_inj _ _ 32 "out.txt" (by decide) h (9 + 1 * 32) (by decide)
  rw [hcell] at this
  have c41b : rd (seed (alloc (fun _ => 0) (32 * 32)) 32 false) (9 + 1 * 32) = 0 := c41
  rw [c41b] at this
  norm_num at this

end Stencil
